import Mathlib

/-!
# helltime — verification of the notification scheduling and dedup engine

A shallow embedding of the core of the `helltime` desktop reminder widget
(sources: `src/App.tsx` and the revision in `src/unnamed/part_002`, plus
`src/lib/helpers.ts`, `src/lib/safety.ts`, `src/lib/settings.ts`,
`src/lib/storage.ts`).

Modelling conventions:
* JS millisecond timestamps are `Int`.
* `new Date(s).getTime()` on an occurrence's `startTime` string is abstracted
  to a stored field `startMs : Option Int` — `none` models a non-finite parse
  (`Number.isFinite(startMs)` false, i.e. an unparseable date).
* The fired registry (a JS object `Record<string, number>`) is modelled as its
  entry list `List (String × Int)`; JS objects have unique keys, property read
  is `getF`, property write updates the entry in place or appends.
* JS truthiness of `firedRef.current[key]` is `truthy`: a present entry with a
  nonzero value.
* Side effects of the notification dispatcher (overlay toast, beep, speech)
  are recorded as boolean fields of an emitted `FireEvent`; an empty event
  list means zero dispatcher side effects.
-/

/-- The three event categories (`ScheduleType` in `src/lib/types.ts`). -/
inductive ScheduleType where
  | helltide
  | legion
  | world_boss
deriving DecidableEq, Repr

/-- The JS string literal of a `ScheduleType` (the union is of string
literals; used to build registry keys). -/
def ScheduleType.str : ScheduleType → String
  | .helltide => "helltide"
  | .legion => "legion"
  | .world_boss => "world_boss"

/-- The source's `BeepPattern` from `src/lib/settings.ts`. -/
inductive BeepPattern where
  | beep
  | double
  | triple
deriving DecidableEq, Repr

/-- The source's `TimerSettings` from `src/lib/settings.ts` (one lead-time alert slot). -/
structure TimerSettings where
  minutesBefore : Int
  ttsEnabled : Bool
  beepPattern : BeepPattern
  pitchHz : Int
deriving DecidableEq, Repr

/-- The source's `CategorySettings` from `src/lib/settings.ts`: a category owns three
slots of which the first `timerCount` are active. -/
structure CategorySettings where
  enabled : Bool
  timerCount : Nat
  timers : TimerSettings × TimerSettings × TimerSettings
deriving DecidableEq, Repr

/-- The source's `category.timers[i]` for the slot loop indices `0 ≤ i < timerCount ≤ 3`
(the `_` case is only reached at `i = 2`). -/
def CategorySettings.timer (c : CategorySettings) : Nat → TimerSettings
  | 0 => c.timers.1
  | 1 => c.timers.2.1
  | _ => c.timers.2.2

/-- The slice of `Settings` that the App's trigger/dispatch code reads. -/
structure AppSettings where
  soundEnabled : Bool
  overlayToastsEnabled : Bool
  helltideCat : CategorySettings
  legionCat : CategorySettings
  worldBossCat : CategorySettings
deriving DecidableEq, Repr

/-- The source's `settings.categories[type]`. -/
def AppSettings.categories (st : AppSettings) : ScheduleType → CategorySettings
  | .helltide => st.helltideCat
  | .legion => st.legionCat
  | .world_boss => st.worldBossCat

/-- One schedule occurrence (`ScheduleItemBase` in `src/lib/types.ts`).
`startMs` is the parsed `new Date(startTime).getTime()` value, `none` when the
parse is not finite. `timestamp` is the source-supplied seconds field used
only for sorting in `refresh`. -/
structure Occ where
  id : Int
  timestamp : Int
  startMs : Option Int
deriving DecidableEq, Repr

/-- The source's `ScheduleResponse`: one occurrence list per category. -/
structure Sched where
  helltide : List Occ
  legion : List Occ
  world_boss : List Occ
deriving DecidableEq, Repr

/-- The source's `schedule[type]`. -/
def Sched.get (s : Sched) : ScheduleType → List Occ
  | .helltide => s.helltide
  | .legion => s.legion
  | .world_boss => s.world_boss

/-! ## Fired registry (`FiredMap` in `src/App.tsx`) -/

/-- The entry list of the JS object `Record<string, number>`. -/
abbrev FiredMap := List (String × Int)

/-- Property read `m[k]` (JS object keys are unique, so first match). -/
def getF : FiredMap → String → Option Int
  | [], _ => none
  | kv :: rest, k => if kv.1 = k then some kv.2 else getF rest k

/-- JS truthiness of `firedRef.current[key]`: a present, nonzero value. -/
def truthy (m : FiredMap) (k : String) : Bool :=
  match getF m k with
  | some v => decide (v ≠ 0)
  | none => false

/-- Property write `m[k] = v`: replace the existing entry in place, else
append (JS object assignment semantics on unique keys). -/
def recordFired : FiredMap → String → Int → FiredMap
  | [], k, v => [(k, v)]
  | kv :: rest, k, v => if kv.1 = k then (k, v) :: rest else kv :: recordFired rest k v

/-- The source's `pruneFired` from `src/App.tsx`: keep entries whose recorded timestamp is
at least `now - 12h` (`keepAfter = now - 1000*60*60*12`); all modelled values
are numbers, so the `typeof v === "number"` guard always passes. -/
def pruneFired (m : FiredMap) (now : Int) : FiredMap :=
  m.filter (fun kv => decide (now - 1000 * 60 * 60 * 12 ≤ kv.2))

/-- The registry key `` `${type}:${next.id}:${i}` ``. -/
def mkKey (ty : ScheduleType) (id : Int) (i : Nat) : String :=
  ty.str ++ ":" ++ toString id ++ ":" ++ toString i

/-! ## Occurrence selector (`findNext` in `src/lib/helpers.ts` / `src/App.tsx`) -/

/-- The loop of `findNext`: `best`/`bestStartMs` accumulator, `bestStartMs`
starting at `+∞` is modelled as `none`. -/
def findNextAux (now : Int) : List Occ → Option Occ → Option Int → Option Occ
  | [], best, _ => best
  | item :: rest, best, bestStart =>
    match item.startMs with
    | none => findNextAux now rest best bestStart
    | some s =>
      if s ≤ now then findNextAux now rest best bestStart
      else
        match bestStart with
        | none => findNextAux now rest (some item) (some s)
        | some b =>
          if s < b then findNextAux now rest (some item) (some s)
          else findNextAux now rest best bestStart

/-- The source's `findNext(items, now)`: the strictly-future occurrence with minimal
parsed start time, skipping unparseable start times. -/
def findNext (items : List Occ) (now : Int) : Option Occ :=
  findNextAux now items none none

/-! ## Trigger evaluator and notification dispatcher
(the tick `useEffect` of `src/App.tsx` lines 242–287 / `src/unnamed/part_002`) -/

/-- A fire event together with the dispatcher side effects it produced.
`toast`/`beep`/`speech` record which presentation actions were triggered
(overlay toast, audio cue, speech cue). -/
structure FireEvent where
  key : String
  type : ScheduleType
  occId : Int
  slotIndex : Nat
  toast : Bool
  beep : Bool
  speech : Bool
deriving DecidableEq, Repr

/-- Dispatcher fan-out for one fired slot, per the tick effect:
`showOverlayToast` is gated by `settings.overlayToastsEnabled` (panic-stop is
already false on this path), the beep by `settings.soundEnabled`, and speech
by `settings.soundEnabled` (the `continue`) and `timer.ttsEnabled`. -/
def mkFireEvent (st : AppSettings) (ty : ScheduleType) (oid : Int) (i : Nat)
    (timer : TimerSettings) : FireEvent :=
  { key := mkKey ty oid i
    type := ty
    occId := oid
    slotIndex := i
    toast := st.overlayToastsEnabled
    beep := st.soundEnabled
    speech := st.soundEnabled && timer.ttsEnabled }

/-- The inner slot loop `for (let i = 0; i < category.timerCount; i++)`,
evaluated over the index list and threading the fired map. -/
def evalSlots (st : AppSettings) (ty : ScheduleType) (cat : CategorySettings)
    (oid : Int) (startMs now : Int) : List Nat → FiredMap → FiredMap × List FireEvent
  | [], m => (m, [])
  | i :: rest, m =>
    let timer := cat.timer i
    let triggerMs := startMs - timer.minutesBefore * 60000
    if now < triggerMs ∨ triggerMs + 30000 < now then
      evalSlots st ty cat oid startMs now rest m
    else if truthy m (mkKey ty oid i) then
      evalSlots st ty cat oid startMs now rest m
    else
      let m' := recordFired m (mkKey ty oid i) now
      let res := evalSlots st ty cat oid startMs now rest m'
      (res.1, mkFireEvent st ty oid i timer :: res.2)

/-- One category's turn in the tick loop: skip when disabled or when
`findNext` yields nothing; otherwise evaluate the active slots against the
occurrence's parsed start time. (For a `findNext` result the parse is always
finite; the `none` branch is unreachable.) -/
def evalCategory (st : AppSettings) (sch : Sched) (now : Int) (ty : ScheduleType)
    (m : FiredMap) : FiredMap × List FireEvent :=
  let cat := st.categories ty
  if cat.enabled then
    match findNext (sch.get ty) now with
    | none => (m, [])
    | some next =>
      match next.startMs with
      | none => (m, [])
      | some startMs => evalSlots st ty cat next.id startMs now (List.range cat.timerCount) m
  else (m, [])

/-- The source's `const types: ScheduleType[] = ["helltide", "legion", "world_boss"]`. -/
def typesList : List ScheduleType := [.helltide, .legion, .world_boss]

/-- The `for (const type of types)` loop, threading the fired map. -/
def evalAll (st : AppSettings) (sch : Sched) (now : Int) :
    List ScheduleType → FiredMap → FiredMap × List FireEvent
  | [], m => (m, [])
  | ty :: rest, m =>
    let res := evalCategory st sch now ty m
    let res' := evalAll st sch now rest res.1
    (res'.1, res.2 ++ res'.2)

/-- One 1 Hz tick: the prune effect runs first (on every tick, panic or not),
then the trigger effect, which returns early when there is no schedule or
panic-stop is enabled. -/
def tickStep (st : AppSettings) (panic : Bool) (sch : Option Sched)
    (m : FiredMap) (now : Int) : FiredMap × List FireEvent :=
  let m1 := pruneFired m now
  match sch with
  | none => (m1, [])
  | some s => if panic then (m1, []) else evalAll st s now typesList m1

/-- A sequence of ticks at the given times, accumulating fire events. -/
def runTicks (st : AppSettings) (panic : Bool) (sch : Option Sched)
    (m : FiredMap) : List Int → FiredMap × List FireEvent
  | [] => (m, [])
  | t :: ts =>
    let res := tickStep st panic sch m t
    let res' := runTicks st panic sch res.1 ts
    (res'.1, res.2 ++ res'.2)

/-- Number of fire events for a given `(category, occurrenceId, slotIndex)`. -/
def countTriple (evs : List FireEvent) (ty : ScheduleType) (oid : Int) (i : Nat) : Nat :=
  (evs.filter (fun e => decide (e.type = ty ∧ e.occId = oid ∧ e.slotIndex = i))).length

/-- Number of fire events carrying a given registry key. -/
def countKey (evs : List FireEvent) (k : String) : Nat :=
  (evs.filter (fun e => decide (e.key = k))).length

/-! ## Catch-up evaluator (`setCategoryEnabled` in `src/unnamed/part_002`,
lines 424–474) -/

/-- The source's `candidates.sort((a,b) => a.minutesBefore - b.minutesBefore)` followed by
`candidates[0]`: the first index whose lead is strictly smaller than every
earlier minimum (JS sort is stable, so ties keep source order). -/
def pickCatchUp (cat : CategorySettings) : List Nat → Option Nat → Option Nat
  | [], acc => acc
  | j :: rest, acc =>
    match acc with
    | none => pickCatchUp cat rest (some j)
    | some c =>
      if (cat.timer j).minutesBefore < (cat.timer c).minutesBefore then
        pickCatchUp cat rest (some j)
      else pickCatchUp cat rest (some c)

/-- The `candidates` of the catch-up evaluator: the active slot indices whose
normal trigger point has already passed (`timer.minutesBefore * 60_000 >=
remainingMs`). -/
def catchUpCandidates (cat : CategorySettings) (remainingMs : Int) : List Nat :=
  (List.range cat.timerCount).filter
    (fun j => decide (remainingMs ≤ (cat.timer j).minutesBefore * 60000))

/-- Catch-up on enabling a category (`setCategoryEnabled(type, true)`):
select the next occurrence (memoised at the tick time `tickNow`), compute
`remainingMs` against a fresh `Date.now()` (`nowMs`), collect the active
slots whose lead has already passed (`minutesBefore * 60000 ≥ remainingMs`),
pick the smallest-lead one, and fire it unless its key is already recorded.
Returns the updated fired map and the emitted fire event, if any. -/
def catchUp (st : AppSettings) (sch : Option Sched) (m : FiredMap)
    (ty : ScheduleType) (tickNow nowMs : Int) : FiredMap × Option FireEvent :=
  match sch with
  | none => (m, none)
  | some s =>
    match findNext (s.get ty) tickNow with
    | none => (m, none)
    | some next =>
      match next.startMs with
      | none => (m, none)
      | some startMs =>
        let remainingMs := startMs - nowMs
        if remainingMs > 0 then
          let cat := st.categories ty
          match pickCatchUp cat (catchUpCandidates cat remainingMs) none with
          | none => (m, none)
          | some c =>
            let key := mkKey ty next.id c
            if truthy m key then (m, none)
            else (recordFired m key nowMs, some (mkFireEvent st ty next.id c (cat.timer c)))
        else (m, none)

/-! ## Safety subsystem (`src/lib/safety.ts`) -/

/-- The persisted panic-stop flag: `localStorage.getItem("helltime:panicStop")
=== "1"`. The storage slot is `Option String`. -/
def isPanicStopEnabled (store : Option String) : Bool :=
  store = some "1"

/-- The source's `enablePanicStop`: persist `"1"` (the dispatched event, speech cancel and
overlay hide are presentation-side). -/
def enablePanicStop (_store : Option String) : Option String :=
  some "1"

/-- The source's `disablePanicStop`: remove the persisted flag. -/
def disablePanicStop (_store : Option String) : Option String :=
  none

/-- Watchdog state: the consecutive-bad-observation counter and the persisted
panic-stop storage slot. -/
structure WatchdogState where
  badCount : Nat
  store : Option String
deriving DecidableEq, Repr

/-- One interval callback of `startUiWatchdog`: no-op while panic-stop is
already enabled or during the arming grace period (`Date.now() < armedAt`,
abstracted as `armed`); a plausible-dimensions observation (`ok`) resets the
counter; a bad one increments it and trips `enablePanicStop` at three. -/
def watchdogObserve (s : WatchdogState) (armed ok : Bool) : WatchdogState :=
  if isPanicStopEnabled s.store then s
  else if !armed then s
  else if ok then { s with badCount := 0 }
  else
    let b := s.badCount + 1
    if 3 ≤ b then { badCount := b, store := enablePanicStop s.store }
    else { s with badCount := b }

/-! ## Fired-registry persistence (`loadFired` in `src/App.tsx`) -/

/-- The observable outcome of `localStorage.getItem` composed with
`JSON.parse` for a fired-registry slot: the item is absent (`null`), is the
empty string (falsy but not nullish), fails to parse, or parses to a map. -/
inductive StoredVal where
  | missing
  | emptyStr
  | corrupt
  | valid (m : FiredMap)
deriving DecidableEq, Repr

/-- The source's `loadFired`: `localStorage.getItem(FIRED_KEY) ?? localStorage.getItem(OLD_FIRED_KEY)`
(`??` falls through only on a nullish current slot), then `{}` for a falsy
raw string and `{}` when `JSON.parse` throws. -/
def loadFired (cur old : StoredVal) : FiredMap :=
  let raw := match cur with
    | .missing => old
    | x => x
  match raw with
  | .missing => []
  | .emptyStr => []
  | .corrupt => []
  | .valid m => m

/-! ## Schedule refresh (`refresh` in `src/App.tsx` lines 144–159) -/

/-- The App state touched by `refresh`. -/
structure AppState where
  schedule : Option Sched
  error : Option String
  loading : Bool
  lastRefreshAt : Option Int
deriving DecidableEq, Repr

/-- The source's `data.<cat>.sort((a, b) => a.timestamp - b.timestamp)` on each list. -/
def sortSched (d : Sched) : Sched :=
  { helltide := d.helltide.mergeSort (fun a b => decide (a.timestamp ≤ b.timestamp))
    legion := d.legion.mergeSort (fun a b => decide (a.timestamp ≤ b.timestamp))
    world_boss := d.world_boss.mergeSort (fun a b => decide (a.timestamp ≤ b.timestamp)) }

/-- The source's `refresh`: `setError(null)`, await `fetchSchedule()`; on success sort and
replace the snapshot and stamp `lastRefreshAt`; on failure record the error
string; `setLoading(false)` in `finally`. -/
def refresh (st : AppState) (result : Except String Sched) (fetchedAt : Int) : AppState :=
  match result with
  | .ok data =>
    { st with
      schedule := some (sortSched data)
      error := none
      loading := false
      lastRefreshAt := some fetchedAt }
  | .error e =>
    { st with error := some e, loading := false }

/-! ## Persisted settings (`src/lib/settings.ts`) -/

/-- A parsed JSON value, as produced by `storage.readJson`. A JS number is
`num (some q)` when finite and `num none` for `NaN` / `±Infinity` (still of
`typeof "number"` but rejected by `Number.isFinite`). -/
inductive JVal where
  | null
  | bool (b : Bool)
  | num (q : Option ℚ)
  | str (s : String)
  | arr (xs : List JVal)
  | obj (fields : List (String × JVal))

/-- First-match field lookup in a JS object literal (keys are unique). -/
def jlookup : List (String × JVal) → String → Option JVal
  | [], _ => none
  | kv :: rest, k => if kv.1 = k then some kv.2 else jlookup rest k

/-- Optional-chained property access `v?.k`; `none` models `undefined`. -/
def jget : Option JVal → String → Option JVal
  | some (.obj fs), k => jlookup fs k
  | _, _ => none

/-- The source's `typeof x === "boolean" ? x : fallback`. -/
def jboolD (v : Option JVal) (fallback : Bool) : Bool :=
  match v with
  | some (.bool b) => b
  | _ => fallback

/-- The guard `v && typeof v === "object"`: objects and arrays pass, `null`
is falsy, and every other JSON value has a different `typeof`. -/
def isObjLike : Option JVal → Bool
  | some (.obj _) => true
  | some (.arr _) => true
  | _ => false

/-- The source's `v?.version` when it is a finite number (for the `=== n` version tests). -/
def jversion (v : Option JVal) : Option ℚ :=
  match jget v "version" with
  | some (.num (some q)) => some q
  | _ => none

/-- JS `Math.round`: half-way cases round toward `+∞`. -/
def jsRound (q : ℚ) : Int := ⌊q + 1 / 2⌋

/-- The persisted `Settings` shape of `settings.ts` (version is always 5
after migration). -/
structure Settings where
  version : Nat
  volume : ℚ
  systemToastsEnabled : Bool
  overlayToastsEnabled : Bool
  overlayToastsPosition : Option (Int × Int)
  overlayBgHex : String
  helltideCat : CategorySettings
  legionCat : CategorySettings
  worldBossCat : CategorySettings

/-- The source's `defaultTimers()`. -/
def defaultTimers : TimerSettings × TimerSettings × TimerSettings :=
  (⟨30, true, .beep, 880⟩, ⟨10, false, .double, 880⟩, ⟨5, false, .triple, 880⟩)

/-- The source's `defaultCategory(enabled)`. -/
def defaultCategory (enabled : Bool) : CategorySettings :=
  ⟨enabled, 3, defaultTimers⟩

/-- The `defaults` settings constant. -/
def defaults : Settings :=
  ⟨5, 4 / 5, false, false, none, "#0b1220",
    defaultCategory true, defaultCategory true, defaultCategory true⟩

/-- One character of `[0-9a-f]`. -/
def isLowerHexDigit (c : Char) : Bool :=
  (decide ('0' ≤ c) && decide (c ≤ '9')) || (decide ('a' ≤ c) && decide (c ≤ 'f'))

/-- The test `/^#[0-9a-f]{6}$/.test(s)`. -/
def isHexColorStr (s : String) : Bool :=
  match s.data with
  | '#' :: rest => decide (rest.length = 6) && rest.all isLowerHexDigit
  | _ => false

/-- The source's `normalizeHexColor`: a trimmed, lowercased `#rrggbb` string, else the
fallback. -/
def normalizeHexColor (raw : Option JVal) (fallback : String) : String :=
  match raw with
  | some (.str s) => if isHexColorStr s.trim.toLower then s.trim.toLower else fallback
  | _ => fallback

/-- The source's `normalizePosition`: both coordinates must be finite numbers. -/
def normalizePosition (raw : Option JVal) : Option (Int × Int) :=
  match jget raw "x", jget raw "y" with
  | some (.num (some x)), some (.num (some y)) => some (jsRound x, jsRound y)
  | _, _ => none

/-- The source's `clampUnit`: a finite number clamped to `[0, 1]`, else the fallback. -/
def clampUnit (n : Option JVal) (fallback : ℚ) : ℚ :=
  match n with
  | some (.num (some q)) => max 0 (min 1 q)
  | _ => fallback

/-- The source's `clampInt`: a finite number rounded and clamped to `[lo, hi]`, else the
fallback. -/
def clampInt (n : Option JVal) (fallback lo hi : Int) : Int :=
  match n with
  | some (.num (some q)) => max lo (min hi (jsRound q))
  | _ => fallback

/-- The source's `normalizeBeepPattern`. -/
def normalizeBeepPattern (v : Option JVal) (fallback : BeepPattern) : BeepPattern :=
  match v with
  | some (.str "beep") => .beep
  | some (.str "double") => .double
  | some (.str "triple") => .triple
  | _ => fallback

/-- The source's `normalizeTimer`. -/
def normalizeTimer (raw : Option JVal) (fallback : TimerSettings) : TimerSettings :=
  { minutesBefore := clampInt (jget raw "minutesBefore") fallback.minutesBefore 1 60
    ttsEnabled := jboolD (jget raw "ttsEnabled") fallback.ttsEnabled
    beepPattern := normalizeBeepPattern (jget raw "beepPattern") fallback.beepPattern
    pitchHz := clampInt (jget raw "pitchHz") fallback.pitchHz 120 2000 }

/-- The source's `normalizeCategory`. -/
def normalizeCategory (raw : Option JVal) (fallback : CategorySettings) : CategorySettings :=
  let timerCount : Nat :=
    match jget raw "timerCount" with
    | some (.num (some q)) =>
      if q = 1 then 1 else if q = 2 then 2 else if q = 3 then 3 else fallback.timerCount
    | _ => fallback.timerCount
  let rawTimers : List JVal :=
    match jget raw "timers" with
    | some (.arr xs) => xs
    | _ => []
  { enabled := jboolD (jget raw "enabled") fallback.enabled
    timerCount := timerCount
    timers := (normalizeTimer (rawTimers.get? 0) fallback.timers.1,
               normalizeTimer (rawTimers.get? 1) fallback.timers.2.1,
               normalizeTimer (rawTimers.get? 2) fallback.timers.2.2) }

/-- One level of `timersFromV2` (`rawLevels[i] ?? {}`, then the `sound`
mapping; `pitchHz` is always the fallback's). -/
def v2timer (raw0 : Option JVal) (fallback : TimerSettings) : TimerSettings :=
  let raw : Option JVal :=
    match raw0 with
    | none => some (.obj [])
    | some .null => some (.obj [])
    | x => x
  { minutesBefore := clampInt (jget raw "minutesBefore") fallback.minutesBefore 1 60
    ttsEnabled := jboolD (jget raw "ttsEnabled") fallback.ttsEnabled
    beepPattern :=
      match jget raw "sound" with
      | some (.str "alarm") => .triple
      | some (.str "beep") => .beep
      | _ => fallback.beepPattern
    pitchHz := fallback.pitchHz }

/-- The source's `timersFromV2`. -/
def timersFromV2 (levels : Option JVal) : TimerSettings × TimerSettings × TimerSettings :=
  let rawLevels : List JVal :=
    match levels with
    | some (.arr xs) => xs
    | _ => []
  (v2timer (rawLevels.get? 0) defaultTimers.1,
   v2timer (rawLevels.get? 1) defaultTimers.2.1,
   v2timer (rawLevels.get? 2) defaultTimers.2.2)

/-- The source's `loadSettings`: try the stored `settings_v5`, `settings_v4`,
`settings_v3`, `settings_v2` and `settings` slots in order (each argument is
the corresponding `readJson` result, `none` when missing or corrupt), and
normalize whichever matches first, else return `defaults`. `cloneTimers` is
the identity here since Lean values never alias. -/
def loadSettings (s5 s4 s3 s2 s1 : Option JVal) : Settings :=
  if isObjLike s5 = true ∧ jversion s5 = some 5 then
    let rawCategories := jget s5 "categories"
    { version := 5
      volume := clampUnit (jget s5 "volume") defaults.volume
      systemToastsEnabled :=
        match jget s5 "systemToastsEnabled" with
        | some (.bool b) => b
        | _ =>
          match jget s5 "toastEnabled" with
          | some (.bool b) => b
          | _ => defaults.systemToastsEnabled
      overlayToastsEnabled := jboolD (jget s5 "overlayToastsEnabled") defaults.overlayToastsEnabled
      overlayToastsPosition := normalizePosition (jget s5 "overlayToastsPosition")
      overlayBgHex := normalizeHexColor (jget s5 "overlayBgHex") defaults.overlayBgHex
      helltideCat := normalizeCategory (jget rawCategories "helltide") defaults.helltideCat
      legionCat := normalizeCategory (jget rawCategories "legion") defaults.legionCat
      worldBossCat := normalizeCategory (jget rawCategories "world_boss") defaults.worldBossCat }
  else if isObjLike s4 = true ∧ jversion s4 = some 4 then
    { version := 5
      volume := clampUnit (jget s4 "volume") defaults.volume
      systemToastsEnabled := jboolD (jget s4 "systemToastsEnabled") defaults.systemToastsEnabled
      overlayToastsEnabled := jboolD (jget s4 "overlayToastsEnabled") defaults.overlayToastsEnabled
      overlayToastsPosition := normalizePosition (jget s4 "overlayToastsPosition")
      overlayBgHex := defaults.overlayBgHex
      helltideCat := normalizeCategory (jget (jget s4 "categories") "helltide") defaults.helltideCat
      legionCat := normalizeCategory (jget (jget s4 "categories") "legion") defaults.legionCat
      worldBossCat := normalizeCategory (jget (jget s4 "categories") "world_boss") defaults.worldBossCat }
  else if isObjLike s3 = true ∧ jversion s3 = some 3 then
    { version := 5
      volume := clampUnit (jget s3 "volume") defaults.volume
      systemToastsEnabled := jboolD (jget s3 "systemToastsEnabled") defaults.systemToastsEnabled
      overlayToastsEnabled := defaults.overlayToastsEnabled
      overlayToastsPosition := defaults.overlayToastsPosition
      overlayBgHex := defaults.overlayBgHex
      helltideCat := normalizeCategory (jget (jget s3 "categories") "helltide") defaults.helltideCat
      legionCat := normalizeCategory (jget (jget s3 "categories") "legion") defaults.legionCat
      worldBossCat := normalizeCategory (jget (jget s3 "categories") "world_boss") defaults.worldBossCat }
  else if isObjLike s2 = true ∧ jversion s2 = some 2 then
    let enabled := jget s2 "eventEnabled"
    let timerCount : Nat :=
      match jget s2 "levelCount" with
      | some (.num (some q)) => if q = 1 then 1 else if q = 2 then 2 else if q = 3 then 3 else 3
      | _ => 3
    let timers := timersFromV2 (jget s2 "levels")
    { version := 5
      volume := defaults.volume
      systemToastsEnabled := defaults.systemToastsEnabled
      overlayToastsEnabled := defaults.overlayToastsEnabled
      overlayToastsPosition := defaults.overlayToastsPosition
      overlayBgHex := defaults.overlayBgHex
      helltideCat := ⟨jboolD (jget enabled "helltide") true, timerCount, timers⟩
      legionCat := ⟨jboolD (jget enabled "legion") true, timerCount, timers⟩
      worldBossCat := ⟨jboolD (jget enabled "world_boss") true, timerCount, timers⟩ }
  else if isObjLike s1 = true then
    let minutesBefore := clampInt (jget s1 "minutesBefore") 30 1 60
    let enabled := jboolD (jget s1 "notifyEnabled") true
    { version := 5
      volume := defaults.volume
      systemToastsEnabled := defaults.systemToastsEnabled
      overlayToastsEnabled := defaults.overlayToastsEnabled
      overlayToastsPosition := defaults.overlayToastsPosition
      overlayBgHex := defaults.overlayBgHex
      helltideCat := ⟨enabled, 1,
        (⟨minutesBefore, defaultTimers.1.ttsEnabled, defaultTimers.1.beepPattern,
          defaultTimers.1.pitchHz⟩, defaultTimers.2.1, defaultTimers.2.2)⟩
      legionCat := defaultCategory false
      worldBossCat := defaultCategory false }
  else defaults

/-! ## Helper lemmas: occurrence selector -/

/-- Loop invariant and postcondition of the `findNext` accumulator loop. -/
lemma findNextAux_spec (now : Int) (items : List Occ) :
    ∀ (best : Option Occ) (bs : Option Int),
    (best = none ∧ bs = none) ∨
      (∃ o s, best = some o ∧ bs = some s ∧ o.startMs = some s ∧ now < s) →
    (findNextAux now items best bs = none →
      best = none ∧ ∀ o ∈ items, ∀ s, o.startMs = some s → s ≤ now) ∧
    (∀ o, findNextAux now items best bs = some o →
      (o ∈ items ∨ best = some o) ∧
      ∃ s, o.startMs = some s ∧ now < s ∧
        (∀ o' ∈ items, ∀ s', o'.startMs = some s' → now < s' → s ≤ s') ∧
        (∀ b, bs = some b → s ≤ b)) := by
  induction items with
  | nil =>
    rintro best bs (⟨hb, hs⟩ | ⟨o, s, hb, hs, ho, hlt⟩)
    · subst hb; subst hs
      refine ⟨fun _ => ⟨rfl, by simp⟩, fun o h => ?_⟩
      simp [findNextAux] at h
    · subst hb; subst hs
      refine ⟨fun h => by simp [findNextAux] at h, fun o' h => ?_⟩
      simp only [findNextAux, Option.some.injEq] at h
      subst h
      refine ⟨Or.inr rfl, s, ho, hlt, by simp, ?_⟩
      intro b hb
      injection hb with hb'
      omega
  | cons item rest ih =>
    rintro best bs hacc
    show (findNextAux now (item :: rest) best bs = none → _) ∧ _
    by_cases hp : ∃ s, item.startMs = some s
    · obtain ⟨s, hs⟩ := hp
      by_cases hle : s ≤ now
      · -- not strictly future: skipped
        have heq : findNextAux now (item :: rest) best bs = findNextAux now rest best bs := by
          simp [findNextAux, hs, hle]
        obtain ⟨ihn, ihs⟩ := ih best bs hacc
        constructor
        · intro h
          rw [heq] at h
          obtain ⟨h1, h2⟩ := ihn h
          refine ⟨h1, ?_⟩
          intro o ho s' hs'
          rcases List.mem_cons.mp ho with rfl | ho'
          · rw [hs] at hs'; injection hs' with hs''; omega
          · exact h2 o ho' s' hs'
        · intro o h
          rw [heq] at h
          obtain ⟨hmem, s₀, h1, h2, h3, h4⟩ := ihs o h
          have hmem' : o ∈ item :: rest ∨ best = some o := by
            rcases hmem with hm | hm
            · exact Or.inl (List.mem_cons_of_mem _ hm)
            · exact Or.inr hm
          refine ⟨hmem', s₀, h1, h2, ?_, h4⟩
          intro o' ho' s' hs' hlt'
          rcases List.mem_cons.mp ho' with rfl | ho''
          · rw [hs] at hs'; injection hs' with hs''; omega
          · exact h3 o' ho'' s' hs' hlt'
      · -- strictly future: may replace the accumulator
        push_neg at hle
        rcases hacc with ⟨hb, hbs⟩ | ⟨o₀, b₀, hb, hbs, ho₀, hlt₀⟩
        · subst hb; subst hbs
          have heq : findNextAux now (item :: rest) none none =
              findNextAux now rest (some item) (some s) := by
            simp [findNextAux, hs, not_le.mpr hle]
          obtain ⟨ihn, ihs⟩ := ih (some item) (some s)
            (Or.inr ⟨item, s, rfl, rfl, hs, hle⟩)
          constructor
          · intro h
            rw [heq] at h
            obtain ⟨h1, _⟩ := ihn h
            exact absurd h1 (by simp)
          · intro o h
            rw [heq] at h
            obtain ⟨hmem, s₀, h1, h2, h3, h4⟩ := ihs o h
            have hs₀s : s₀ ≤ s := h4 s rfl
            refine ⟨?_, s₀, h1, h2, ?_, by simp⟩
            · rcases hmem with hm | hm
              · exact Or.inl (List.mem_cons_of_mem _ hm)
              · injection hm with hm'; exact Or.inl (by simp [hm'])
            · intro o' ho' s' hs' hlt'
              rcases List.mem_cons.mp ho' with rfl | ho''
              · rw [hs] at hs'; injection hs' with hs''; omega
              · exact h3 o' ho'' s' hs' hlt'
        · subst hb; subst hbs
          by_cases hsb : s < b₀
          · have heq : findNextAux now (item :: rest) (some o₀) (some b₀) =
                findNextAux now rest (some item) (some s) := by
              simp [findNextAux, hs, not_le.mpr hle, hsb]
            obtain ⟨ihn, ihs⟩ := ih (some item) (some s)
              (Or.inr ⟨item, s, rfl, rfl, hs, hle⟩)
            constructor
            · intro h
              rw [heq] at h
              obtain ⟨h1, _⟩ := ihn h
              exact absurd h1 (by simp)
            · intro o h
              rw [heq] at h
              obtain ⟨hmem, s₀, h1, h2, h3, h4⟩ := ihs o h
              have hs₀s : s₀ ≤ s := h4 s rfl
              refine ⟨?_, s₀, h1, h2, ?_, ?_⟩
              · rcases hmem with hm | hm
                · exact Or.inl (List.mem_cons_of_mem _ hm)
                · injection hm with hm'; exact Or.inl (by simp [hm'])
              · intro o' ho' s' hs' hlt'
                rcases List.mem_cons.mp ho' with rfl | ho''
                · rw [hs] at hs'; injection hs' with hs''; omega
                · exact h3 o' ho'' s' hs' hlt'
              · intro b hb; injection hb with hb'; omega
          · have heq : findNextAux now (item :: rest) (some o₀) (some b₀) =
                findNextAux now rest (some o₀) (some b₀) := by
              simp [findNextAux, hs, not_le.mpr hle, hsb]
            obtain ⟨ihn, ihs⟩ := ih (some o₀) (some b₀)
              (Or.inr ⟨o₀, b₀, rfl, rfl, ho₀, hlt₀⟩)
            constructor
            · intro h
              rw [heq] at h
              obtain ⟨h1, _⟩ := ihn h
              exact absurd h1 (by simp)
            · intro o h
              rw [heq] at h
              obtain ⟨hmem, s₀, h1, h2, h3, h4⟩ := ihs o h
              have hs₀b : s₀ ≤ b₀ := h4 b₀ rfl
              refine ⟨?_, s₀, h1, h2, ?_, h4⟩
              · rcases hmem with hm | hm
                · exact Or.inl (List.mem_cons_of_mem _ hm)
                · exact Or.inr hm
              · intro o' ho' s' hs' hlt'
                rcases List.mem_cons.mp ho' with rfl | ho''
                · rw [hs] at hs'; injection hs' with hs''; omega
                · exact h3 o' ho'' s' hs' hlt'
    · -- unparseable start time: skipped entirely
      have hnone : item.startMs = none := by
        cases hitem : item.startMs with
        | none => rfl
        | some s => exact absurd ⟨s, hitem⟩ hp
      have heq : findNextAux now (item :: rest) best bs = findNextAux now rest best bs := by
        simp [findNextAux, hnone]
      obtain ⟨ihn, ihs⟩ := ih best bs hacc
      constructor
      · intro h
        rw [heq] at h
        obtain ⟨h1, h2⟩ := ihn h
        refine ⟨h1, ?_⟩
        intro o ho s' hs'
        rcases List.mem_cons.mp ho with rfl | ho'
        · rw [hnone] at hs'; cases hs'
        · exact h2 o ho' s' hs'
      · intro o h
        rw [heq] at h
        obtain ⟨hmem, s₀, h1, h2, h3, h4⟩ := ihs o h
        have hmem' : o ∈ item :: rest ∨ best = some o := by
          rcases hmem with hm | hm
          · exact Or.inl (List.mem_cons_of_mem _ hm)
          · exact Or.inr hm
        refine ⟨hmem', s₀, h1, h2, ?_, h4⟩
        intro o' ho' s' hs' hlt'
        rcases List.mem_cons.mp ho' with rfl | ho''
        · rw [hnone] at hs'; cases hs'
        · exact h3 o' ho'' s' hs' hlt'

/-- C6: `findNext` returns the occurrence with minimal parsed `startTime`
among those strictly greater than `now`, treats an unparseable `startTime`
as absent (it can neither be returned nor block a parseable one), and
returns `none` exactly when no strictly-future parseable occurrence exists;
in particular it never returns an occurrence with `startTime ≤ now`. -/
theorem findNext_selects_min_future (items : List Occ) (now : Int) :
    (∀ o, findNext items now = some o →
      o ∈ items ∧ ∃ s, o.startMs = some s ∧ now < s ∧
        ∀ o' ∈ items, ∀ s', o'.startMs = some s' → now < s' → s ≤ s') ∧
    (findNext items now = none →
      ∀ o ∈ items, ∀ s, o.startMs = some s → s ≤ now) := by
  have h := findNextAux_spec now items none none (Or.inl ⟨rfl, rfl⟩)
  constructor
  · intro o ho
    obtain ⟨hmem, s, h1, h2, h3, _⟩ := h.2 o ho
    rcases hmem with hm | hm
    · exact ⟨hm, s, h1, h2, h3⟩
    · cases hm
  · intro hn
    exact (h.1 hn).2

/-- Witness for C6 at a concrete input: from
`[{id 1, start 100}, {id 2, unparseable}, {id 3, start 50}]` at `now = 10`,
`findNext` returns the `id 3` occurrence, which is strictly future and
minimal among the parseable strictly-future ones. -/
theorem findNext_selects_min_future_witness :
    findNext [⟨1, 0, some 100⟩, ⟨2, 0, none⟩, ⟨3, 0, some 50⟩] 10 = some ⟨3, 0, some 50⟩ ∧
    ((⟨3, 0, some 50⟩ : Occ) ∈ [(⟨1, 0, some 100⟩ : Occ), ⟨2, 0, none⟩, ⟨3, 0, some 50⟩] ∧
      ∃ s, (⟨3, 0, some 50⟩ : Occ).startMs = some s ∧ 10 < s ∧
        ∀ o' ∈ [(⟨1, 0, some 100⟩ : Occ), ⟨2, 0, none⟩, ⟨3, 0, some 50⟩],
          ∀ s', o'.startMs = some s' → 10 < s' → s ≤ s') :=
  ⟨by decide,
   (findNext_selects_min_future [⟨1, 0, some 100⟩, ⟨2, 0, none⟩, ⟨3, 0, some 50⟩] 10).1
     ⟨3, 0, some 50⟩ (by decide)⟩

/-! ## Helper lemmas: fired registry -/

lemma getF_of_not_mem {m : FiredMap} {k : String} (h : ∀ kv ∈ m, kv.1 ≠ k) :
    getF m k = none := by
  induction m with
  | nil => rfl
  | cons kv rest ih =>
    have hk : kv.1 ≠ k := h kv (List.mem_cons_self kv rest)
    simp only [getF, if_neg hk]
    exact ih fun kv' h' => h kv' (List.mem_cons_of_mem _ h')

lemma prune_cons_keep {kv : String × Int} {rest : FiredMap} {now : Int}
    (hc : now - 1000 * 60 * 60 * 12 ≤ kv.2) :
    pruneFired (kv :: rest) now = kv :: pruneFired rest now := by
  simp only [pruneFired, List.filter_cons, decide_eq_true_eq, if_pos hc]

lemma prune_cons_drop {kv : String × Int} {rest : FiredMap} {now : Int}
    (hc : ¬ now - 1000 * 60 * 60 * 12 ≤ kv.2) :
    pruneFired (kv :: rest) now = pruneFired rest now := by
  simp only [pruneFired, List.filter_cons, decide_eq_true_eq, if_neg hc]

lemma getF_prune_keep {m : FiredMap} {now : Int} {k : String} {v : Int}
    (h : getF m k = some v) (hkeep : now - 1000 * 60 * 60 * 12 ≤ v) :
    getF (pruneFired m now) k = some v := by
  induction m with
  | nil => cases h
  | cons kv rest ih =>
    by_cases hk : kv.1 = k
    · simp only [getF, if_pos hk] at h
      injection h with h'
      subst h'
      rw [prune_cons_keep hkeep]
      simp only [getF, if_pos hk]
    · simp only [getF, if_neg hk] at h
      by_cases hc : now - 1000 * 60 * 60 * 12 ≤ kv.2
      · rw [prune_cons_keep hc]
        simp only [getF, if_neg hk]
        exact ih h
      · rw [prune_cons_drop hc]
        exact ih h

lemma getF_prune_iff {m : FiredMap} (hnd : (m.map Prod.fst).Nodup) (now : Int)
    (k : String) (v : Int) :
    getF (pruneFired m now) k = some v ↔
      (getF m k = some v ∧ now - 1000 * 60 * 60 * 12 ≤ v) := by
  induction m with
  | nil => simp [pruneFired, getF]
  | cons kv rest ih =>
    simp only [List.map_cons, List.nodup_cons] at hnd
    obtain ⟨hk0, hndr⟩ := hnd
    by_cases hk : kv.1 = k
    · subst hk
      have hprest : getF (pruneFired rest now) kv.1 = none := by
        refine getF_of_not_mem fun kv' h' heq => ?_
        have : kv' ∈ rest := List.mem_of_mem_filter h'
        exact hk0 (heq ▸ List.mem_map_of_mem Prod.fst this)
      by_cases hc : now - 1000 * 60 * 60 * 12 ≤ kv.2
      · rw [prune_cons_keep hc]
        simp only [getF, if_pos rfl]
        constructor
        · intro h; injection h with h'; subst h'; exact ⟨rfl, hc⟩
        · intro h; obtain ⟨h1, _⟩ := h; injection h1 with h'; subst h'; rfl
      · rw [prune_cons_drop hc]
        constructor
        · intro h; rw [hprest] at h; cases h
        · intro h
          obtain ⟨h1, hle⟩ := h
          simp only [getF, if_pos rfl] at h1
          injection h1 with h'
          subst h'
          exact absurd hle hc
    · by_cases hc : now - 1000 * 60 * 60 * 12 ≤ kv.2
      · rw [prune_cons_keep hc]
        simp only [getF, if_neg hk]
        exact ih hndr
      · rw [prune_cons_drop hc]
        simp only [getF, if_neg hk]
        exact ih hndr

/-- C5: with the 12-hour retention constant, `pruneFired(map, now)` keeps
exactly the entries recorded at or after `now - 12h` (for a well-formed JS
object, i.e. unique keys); consequently an entry recorded at `t0` is still
present when pruned with `now = t0 + 11h59m` and is gone when pruned with
`now = t0 + 12h01m`. -/
theorem pruneFired_retention (m : FiredMap) (k : String)
    (hnd : (m.map Prod.fst).Nodup) :
    (∀ now v, getF (pruneFired m now) k = some v ↔
      (getF m k = some v ∧ now - 1000 * 60 * 60 * 12 ≤ v)) ∧
    (∀ t0, getF m k = some t0 →
      getF (pruneFired m (t0 + 43140000)) k = some t0 ∧
      getF (pruneFired m (t0 + 43260000)) k = none) := by
  refine ⟨fun now v => getF_prune_iff hnd now k v, fun t0 h => ⟨?_, ?_⟩⟩
  · exact getF_prune_keep h (by omega)
  · cases hp : getF (pruneFired m (t0 + 43260000)) k with
    | none => rfl
    | some v =>
      obtain ⟨h1, h2⟩ := (getF_prune_iff hnd (t0 + 43260000) k v).mp hp
      rw [h] at h1
      injection h1 with h1'
      omega

/-- Witness for C5 at a concrete input: the entry `("a", 5)` survives pruning
at `now = 5 + 11h59m` and is removed at `now = 5 + 12h01m`. -/
theorem pruneFired_retention_witness :
    getF (pruneFired [("a", 5)] (5 + 43140000)) "a" = some 5 ∧
    getF (pruneFired [("a", 5)] (5 + 43260000)) "a" = none :=
  (pruneFired_retention [("a", 5)] "a" (by decide)).2 5 (by decide)

/-- C8: loading the fired registry is total — it never raises: a missing,
empty, or unparseable persisted value in both slots yields the empty
registry, a corrupt current value yields the empty registry, and when the
current-format slot (`helltime:fired_v3`) is absent the legacy slot
(`helltime:fired_v2`) is accepted as the initial registry; a parseable
current value always wins. -/
theorem loadFired_fallbacks :
    (∀ old, loadFired .corrupt old = []) ∧
    loadFired .missing .missing = [] ∧
    loadFired .missing .corrupt = [] ∧
    loadFired .missing .emptyStr = [] ∧
    (∀ old, loadFired .emptyStr old = []) ∧
    (∀ m, loadFired .missing (.valid m) = m) ∧
    (∀ m old, loadFired (.valid m) old = m) :=
  ⟨fun _ => rfl, rfl, rfl, rfl, fun _ => rfl, fun _ => rfl, fun _ _ => rfl⟩

/-- C9: when the schedule fetch fails, `refresh` leaves the stored schedule
snapshot (and `lastRefreshAt`) unchanged, records the user-visible error
string, and the trigger evaluator's behaviour on any later tick is identical
to what it would have been with the previous snapshot (triggering continues
against last-known-good data). -/
theorem refresh_failure_preserves_snapshot (st : AppState) (e : String) (t : Int) :
    (refresh st (.error e) t).schedule = st.schedule ∧
    (refresh st (.error e) t).error = some e ∧
    (refresh st (.error e) t).lastRefreshAt = st.lastRefreshAt ∧
    (∀ (ast : AppSettings) (panic : Bool) (m : FiredMap) (now : Int),
      tickStep ast panic (refresh st (.error e) t).schedule m now =
        tickStep ast panic st.schedule m now) :=
  ⟨rfl, rfl, rfl, fun _ _ _ _ => rfl⟩

/-! ## Helper lemmas: watchdog -/

lemma watchdogObserve_noop {s : WatchdogState} (h : isPanicStopEnabled s.store = true)
    (armed ok : Bool) : watchdogObserve s armed ok = s := by
  simp [watchdogObserve, h]

lemma watchdogObserve_bad {s : WatchdogState} (h : ¬ isPanicStopEnabled s.store = true) :
    watchdogObserve s true false =
      if 3 ≤ s.badCount + 1 then ⟨s.badCount + 1, enablePanicStop s.store⟩
      else ⟨s.badCount + 1, s.store⟩ := by
  simp [watchdogObserve, h]

/-- C7: (a) from any watchdog state, three consecutive failed (armed)
UI-health observations leave the persisted panic-stop flag enabled;
(b) while the flag is enabled, a tick performs no triggering at all — the
trigger evaluator emits zero fire events, hence zero dispatcher side effects
(no overlay toast, no beep, no speech), and only the registry prune runs;
(c) the flag is persisted: after `enablePanicStop` a startup read
(`isPanicStopEnabled`) yields `true` (it survives a restart), and only the
explicit reset `disablePanicStop` clears it. -/
theorem panic_stop_suppression :
    (∀ s : WatchdogState,
      isPanicStopEnabled
        (watchdogObserve (watchdogObserve (watchdogObserve s true false) true false)
          true false).store = true) ∧
    (∀ ps, isPanicStopEnabled ps = true →
      ∀ (st : AppSettings) (sch : Option Sched) (m : FiredMap) (now : Int),
        tickStep st (isPanicStopEnabled ps) sch m now = (pruneFired m now, [])) ∧
    (∀ ps, isPanicStopEnabled (enablePanicStop ps) = true) ∧
    (∀ ps, isPanicStopEnabled (disablePanicStop ps) = false) := by
  refine ⟨?_, ?_, ?_, ?_⟩
  · intro s
    by_cases h1 : isPanicStopEnabled s.store = true
    · rw [watchdogObserve_noop h1, watchdogObserve_noop h1, watchdogObserve_noop h1]
      exact h1
    · rw [watchdogObserve_bad h1]
      by_cases h2 : 3 ≤ s.badCount + 1
      · rw [if_pos h2]
        have hp : isPanicStopEnabled (WatchdogState.mk (s.badCount + 1)
            (enablePanicStop s.store)).store = true := by
          simp [isPanicStopEnabled, enablePanicStop]
        rw [watchdogObserve_noop hp, watchdogObserve_noop hp]
        exact hp
      · rw [if_neg h2]
        have h1' : ¬ isPanicStopEnabled (WatchdogState.mk (s.badCount + 1) s.store).store
            = true := h1
        rw [watchdogObserve_bad h1']
        by_cases h3 : 3 ≤ s.badCount + 1 + 1
        · rw [if_pos h3]
          have hp : isPanicStopEnabled (WatchdogState.mk (s.badCount + 1 + 1)
              (enablePanicStop s.store)).store = true := by
            simp [isPanicStopEnabled, enablePanicStop]
          rw [watchdogObserve_noop hp]
          exact hp
        · rw [if_neg h3]
          have h1'' : ¬ isPanicStopEnabled (WatchdogState.mk (s.badCount + 1 + 1) s.store).store
              = true := h1
          rw [watchdogObserve_bad h1'']
          rw [if_pos (show (3 : Nat) ≤ s.badCount + 1 + 1 + 1 by omega)]
          simp [isPanicStopEnabled, enablePanicStop]
  · intro ps h st sch m now
    cases sch with
    | none => rfl
    | some s => simp [tickStep, h]
  · intro ps
    simp [isPanicStopEnabled, enablePanicStop]
  · intro ps
    simp [isPanicStopEnabled, disablePanicStop]

/-- Witness for C7 at concrete inputs: a fresh watchdog state trips after
three failed observations, and with the flag set (`some "1"`) a tick over a
one-occurrence schedule inside its fire window emits no fire events. -/
theorem panic_stop_suppression_witness :
    isPanicStopEnabled
      (watchdogObserve (watchdogObserve (watchdogObserve ⟨0, none⟩ true false) true false)
        true false).store = true ∧
    tickStep ⟨true, true, ⟨true, 1, (⟨10, true, .beep, 880⟩, ⟨10, false, .double, 880⟩,
        ⟨5, false, .triple, 880⟩)⟩, ⟨false, 3, (⟨30, true, .beep, 880⟩, ⟨10, false, .double, 880⟩,
        ⟨5, false, .triple, 880⟩)⟩, ⟨false, 3, (⟨30, true, .beep, 880⟩, ⟨10, false, .double, 880⟩,
        ⟨5, false, .triple, 880⟩)⟩⟩
      (isPanicStopEnabled (some "1"))
      (some ⟨[⟨1, 0, some 1000000⟩], [], []⟩) [] 500000 = (pruneFired [] 500000, []) :=
  ⟨(panic_stop_suppression.1 ⟨0, none⟩),
   (panic_stop_suppression.2.1 (some "1") (by decide) _ _ [] 500000)⟩

/-! ## Helper lemmas: registry writes and truthiness -/

lemma getF_record_self (m : FiredMap) (k : String) (v : Int) :
    getF (recordFired m k v) k = some v := by
  induction m with
  | nil => simp [recordFired, getF]
  | cons kv rest ih =>
    by_cases hk : kv.1 = k
    · simp [recordFired, hk, getF]
    · simp only [recordFired, if_neg hk, getF, if_neg hk]
      exact ih

lemma getF_record_ne (m : FiredMap) (k : String) (v : Int) {k' : String} (h : k' ≠ k) :
    getF (recordFired m k v) k' = getF m k' := by
  induction m with
  | nil => simp [recordFired, getF, (Ne.symm h)]
  | cons kv rest ih =>
    by_cases hk : kv.1 = k
    · have hk' : ¬ (k = k') := fun hh => h hh.symm
      simp only [recordFired, if_pos hk, getF, if_neg hk', hk]
    · simp only [recordFired, if_neg hk, getF]
      by_cases hk2 : kv.1 = k'
      · simp [hk2]
      · simp only [if_neg hk2]
        exact ih

lemma truthy_congr {m1 m2 : FiredMap} {k : String} (h : getF m1 k = getF m2 k) :
    truthy m1 k = truthy m2 k := by
  simp [truthy, h]

lemma truthy_of_getF {m : FiredMap} {k : String} {v : Int} (h : getF m k = some v)
    (hv : v ≠ 0) : truthy m k = true := by
  simp [truthy, h, hv]

/-! ## Helper lemmas: the slot loop -/

lemma evalSlots_events_spec (st : AppSettings) (ty : ScheduleType) (cat : CategorySettings)
    (oid startMs now : Int) :
    ∀ (idxs : List Nat) (m : FiredMap) (e : FireEvent),
      e ∈ (evalSlots st ty cat oid startMs now idxs m).2 →
      e.type = ty ∧ e.occId = oid ∧ e.slotIndex ∈ idxs ∧
      e.key = mkKey ty oid e.slotIndex ∧
      startMs - (cat.timer e.slotIndex).minutesBefore * 60000 ≤ now ∧
      now ≤ startMs - (cat.timer e.slotIndex).minutesBefore * 60000 + 30000 := by
  intro idxs
  induction idxs with
  | nil => intro m e he; simp [evalSlots] at he
  | cons i rest ih =>
    intro m e he
    simp only [evalSlots] at he
    by_cases hw : now < startMs - (cat.timer i).minutesBefore * 60000 ∨
        startMs - (cat.timer i).minutesBefore * 60000 + 30000 < now
    · rw [if_pos hw] at he
      obtain ⟨h1, h2, h3, h4, h5, h6⟩ := ih m e he
      exact ⟨h1, h2, List.mem_cons_of_mem _ h3, h4, h5, h6⟩
    · rw [if_neg hw] at he
      by_cases ht : truthy m (mkKey ty oid i) = true
      · rw [if_pos ht] at he
        obtain ⟨h1, h2, h3, h4, h5, h6⟩ := ih m e he
        exact ⟨h1, h2, List.mem_cons_of_mem _ h3, h4, h5, h6⟩
      · rw [if_neg ht] at he
        simp only [List.mem_cons] at he
        rcases he with rfl | he'
        · push_neg at hw
          refine ⟨rfl, rfl, List.mem_cons_self _ _, rfl, ?_, ?_⟩
          · simp only [mkFireEvent]
            omega
          · simp only [mkFireEvent]
            omega
        · obtain ⟨h1, h2, h3, h4, h5, h6⟩ :=
            ih (recordFired m (mkKey ty oid i) now) e he'
          exact ⟨h1, h2, List.mem_cons_of_mem _ h3, h4, h5, h6⟩

lemma evalSlots_truthy_frozen (st : AppSettings) (ty : ScheduleType) (cat : CategorySettings)
    (oid startMs now : Int) (k : String) :
    ∀ (idxs : List Nat) (m : FiredMap), truthy m k = true →
      getF (evalSlots st ty cat oid startMs now idxs m).1 k = getF m k ∧
      ∀ e ∈ (evalSlots st ty cat oid startMs now idxs m).2, e.key ≠ k := by
  intro idxs
  induction idxs with
  | nil => intro m hm; exact ⟨rfl, by simp [evalSlots]⟩
  | cons i rest ih =>
    intro m hm
    simp only [evalSlots]
    by_cases hw : now < startMs - (cat.timer i).minutesBefore * 60000 ∨
        startMs - (cat.timer i).minutesBefore * 60000 + 30000 < now
    · rw [if_pos hw]
      exact ih m hm
    · rw [if_neg hw]
      by_cases ht : truthy m (mkKey ty oid i) = true
      · rw [if_pos ht]
        exact ih m hm
      · rw [if_neg ht]
        have hne : mkKey ty oid i ≠ k := fun hh => ht (hh ▸ hm)
        have hpres : getF (recordFired m (mkKey ty oid i) now) k = getF m k :=
          getF_record_ne m _ now (fun hh => hne hh.symm)
        have hm' : truthy (recordFired m (mkKey ty oid i) now) k = true :=
          (truthy_congr hpres).trans hm
        obtain ⟨ihm, ihe⟩ := ih (recordFired m (mkKey ty oid i) now) hm'
        refine ⟨ihm.trans hpres, ?_⟩
        intro e he
        simp only [List.mem_cons] at he
        rcases he with rfl | he'
        · exact hne
        · exact ihe e he'

lemma countKey_append (evs1 evs2 : List FireEvent) (k : String) :
    countKey (evs1 ++ evs2) k = countKey evs1 k + countKey evs2 k := by
  simp [countKey, List.filter_append]

lemma countKey_eq_zero {evs : List FireEvent} {k : String}
    (h : ∀ e ∈ evs, e.key ≠ k) : countKey evs k = 0 := by
  simp only [countKey, List.length_eq_zero, List.filter_eq_nil_iff]
  intro e he
  simp [h e he]

lemma countTriple_le_countKey {evs : List FireEvent} {ty : ScheduleType} {oid : Int}
    {i : Nat} (h : ∀ e ∈ evs, e.key = mkKey e.type e.occId e.slotIndex) :
    countTriple evs ty oid i ≤ countKey evs (mkKey ty oid i) := by
  induction evs with
  | nil => simp [countTriple, countKey]
  | cons e rest ih =>
    have hrest := ih fun e' he' => h e' (List.mem_cons_of_mem _ he')
    have he := h e (List.mem_cons_self _ _)
    simp only [countTriple, countKey, List.filter_cons] at hrest ⊢
    by_cases hm : e.type = ty ∧ e.occId = oid ∧ e.slotIndex = i
    · have hk : e.key = mkKey ty oid i := by rw [he, hm.1, hm.2.1, hm.2.2]
      rw [if_pos (by simpa using hm), if_pos (by simpa using hk)]
      simpa using hrest
    · rw [if_neg (by simpa using hm)]
      by_cases hk : e.key = mkKey ty oid i
      · rw [if_pos (by simpa using hk)]
        simp only [List.length_cons]
        omega
      · rw [if_neg (by simpa using hk)]
        exact hrest

lemma evalSlots_key_count (st : AppSettings) (ty : ScheduleType) (cat : CategorySettings)
    (oid startMs now : Int) (k : String) (hnow : now ≠ 0) :
    ∀ (idxs : List Nat) (m : FiredMap),
      countKey (evalSlots st ty cat oid startMs now idxs m).2 k ≤ 1 ∧
      (∀ e ∈ (evalSlots st ty cat oid startMs now idxs m).2, e.key = k →
        getF (evalSlots st ty cat oid startMs now idxs m).1 k = some now) := by
  intro idxs
  induction idxs with
  | nil =>
    intro m
    refine ⟨by simp [evalSlots, countKey], ?_⟩
    intro e he
    simp [evalSlots] at he
  | cons i rest ih =>
    intro m
    simp only [evalSlots]
    by_cases hw : now < startMs - (cat.timer i).minutesBefore * 60000 ∨
        startMs - (cat.timer i).minutesBefore * 60000 + 30000 < now
    · rw [if_pos hw]; exact ih m
    · rw [if_neg hw]
      by_cases ht : truthy m (mkKey ty oid i) = true
      · rw [if_pos ht]; exact ih m
      · rw [if_neg ht]
        by_cases hkk : mkKey ty oid i = k
        · subst hkk
          have hrec : getF (recordFired m (mkKey ty oid i) now) (mkKey ty oid i) = some now :=
            getF_record_self m _ now
          have htru : truthy (recordFired m (mkKey ty oid i) now) (mkKey ty oid i) = true :=
            truthy_of_getF hrec hnow
          obtain ⟨hmap, hev⟩ := evalSlots_truthy_frozen st ty cat oid startMs now
            (mkKey ty oid i) rest (recordFired m (mkKey ty oid i) now) htru
          constructor
          · have : countKey
                (evalSlots st ty cat oid startMs now rest
                  (recordFired m (mkKey ty oid i) now)).2 (mkKey ty oid i) = 0 :=
              countKey_eq_zero hev
            simp only [countKey, List.filter_cons] at this ⊢
            rw [if_pos (show decide ((mkFireEvent st ty oid i (cat.timer i)).key
              = mkKey ty oid i) = true by simp [mkFireEvent])]
            simp only [List.length_cons]
            omega
          · intro e he hek
            exact hmap.trans hrec
        · have hpres : getF (recordFired m (mkKey ty oid i) now) k = getF m k :=
            getF_record_ne m _ now (fun hh => hkk hh.symm)
          obtain ⟨ihc, ihm⟩ := ih (recordFired m (mkKey ty oid i) now)
          constructor
          · have hhead : (mkFireEvent st ty oid i (cat.timer i)).key ≠ k := hkk
            simp only [countKey, List.filter_cons] at ihc ⊢
            rw [if_neg (by simpa using hhead)]
            exact ihc
          · intro e he hek
            simp only [List.mem_cons] at he
            rcases he with rfl | he'
            · exact absurd hek hkk
            · exact ihm e he' hek

lemma evalSlots_untouched (st : AppSettings) (ty : ScheduleType) (cat : CategorySettings)
    (oid startMs now : Int) (k : String) :
    ∀ (idxs : List Nat) (m : FiredMap),
      (∀ e ∈ (evalSlots st ty cat oid startMs now idxs m).2, e.key ≠ k) →
      getF (evalSlots st ty cat oid startMs now idxs m).1 k = getF m k := by
  intro idxs
  induction idxs with
  | nil => intro m _; rfl
  | cons i rest ih =>
    intro m hne
    simp only [evalSlots] at hne ⊢
    by_cases hw : now < startMs - (cat.timer i).minutesBefore * 60000 ∨
        startMs - (cat.timer i).minutesBefore * 60000 + 30000 < now
    · rw [if_pos hw] at hne ⊢
      exact ih m hne
    · rw [if_neg hw] at hne ⊢
      by_cases ht : truthy m (mkKey ty oid i) = true
      · rw [if_pos ht] at hne ⊢
        exact ih m hne
      · rw [if_neg ht] at hne ⊢
        have hh : (mkFireEvent st ty oid i (cat.timer i)).key ≠ k :=
          hne _ (List.mem_cons_self _ _)
        have hih := ih (recordFired m (mkKey ty oid i) now)
          fun e he => hne e (List.mem_cons_of_mem _ he)
        rw [hih]
        exact getF_record_ne m _ now fun hh' => hh hh'.symm

/-! ## Helper lemmas: the category loop -/

lemma evalCategory_disabled {st : AppSettings} {ty : ScheduleType}
    (sch : Sched) (now : Int) (m : FiredMap)
    (h : ¬ (st.categories ty).enabled = true) :
    evalCategory st sch now ty m = (m, []) := by
  simp [evalCategory, h]

lemma evalCategory_noNext {st : AppSettings} {ty : ScheduleType} {sch : Sched} {now : Int}
    (m : FiredMap) (h : findNext (sch.get ty) now = none) :
    evalCategory st sch now ty m = (m, []) := by
  simp only [evalCategory, h]
  split <;> rfl

lemma evalCategory_badStart {st : AppSettings} {ty : ScheduleType} {sch : Sched} {now : Int}
    {next : Occ} (m : FiredMap) (hf : findNext (sch.get ty) now = some next)
    (hs : next.startMs = none) :
    evalCategory st sch now ty m = (m, []) := by
  simp only [evalCategory, hf, hs]
  split <;> rfl

lemma evalCategory_eq_slots {st : AppSettings} {ty : ScheduleType} {sch : Sched} {now : Int}
    {next : Occ} {S : Int} (m : FiredMap)
    (hen : (st.categories ty).enabled = true)
    (hf : findNext (sch.get ty) now = some next) (hs : next.startMs = some S) :
    evalCategory st sch now ty m =
      evalSlots st ty (st.categories ty) next.id S now
        (List.range (st.categories ty).timerCount) m := by
  simp only [evalCategory, hen, hf, hs, if_true]

lemma evalCategory_events_spec (st : AppSettings) (sch : Sched) (now : Int)
    (ty : ScheduleType) (m : FiredMap) :
    ∀ e ∈ (evalCategory st sch now ty m).2,
      (st.categories ty).enabled = true ∧
      ∃ next S, findNext (sch.get ty) now = some next ∧ next.startMs = some S ∧ now < S ∧
        e.type = ty ∧ e.occId = next.id ∧
        e.slotIndex < (st.categories ty).timerCount ∧
        e.key = mkKey ty next.id e.slotIndex ∧
        S - ((st.categories ty).timer e.slotIndex).minutesBefore * 60000 ≤ now ∧
        now ≤ S - ((st.categories ty).timer e.slotIndex).minutesBefore * 60000 + 30000 := by
  intro e he
  by_cases hen : (st.categories ty).enabled = true
  · cases hf : findNext (sch.get ty) now with
    | none => rw [evalCategory_noNext m hf] at he; simp at he
    | some next =>
      cases hs : next.startMs with
      | none => rw [evalCategory_badStart m hf hs] at he; simp at he
      | some S =>
        rw [evalCategory_eq_slots m hen hf hs] at he
        obtain ⟨h1, h2, h3, h4, h5, h6⟩ := evalSlots_events_spec st ty (st.categories ty)
          next.id S now _ m e he
        obtain ⟨_, s', hs', hlt, _⟩ :=
          (findNext_selects_min_future (sch.get ty) now).1 next hf
        rw [hs] at hs'
        injection hs' with hs''
        subst hs''
        exact ⟨hen, next, S, rfl, hs, hlt, h1, h2, List.mem_range.mp h3, h4, h5, h6⟩
  · rw [evalCategory_disabled sch now m hen] at he
    simp at he

lemma evalCategory_truthy_frozen (st : AppSettings) (sch : Sched) (now : Int)
    (ty : ScheduleType) (m : FiredMap) (k : String) (hm : truthy m k = true) :
    getF (evalCategory st sch now ty m).1 k = getF m k ∧
    ∀ e ∈ (evalCategory st sch now ty m).2, e.key ≠ k := by
  by_cases hen : (st.categories ty).enabled = true
  · cases hf : findNext (sch.get ty) now with
    | none => rw [evalCategory_noNext m hf]; exact ⟨rfl, by simp⟩
    | some next =>
      cases hs : next.startMs with
      | none => rw [evalCategory_badStart m hf hs]; exact ⟨rfl, by simp⟩
      | some S =>
        rw [evalCategory_eq_slots m hen hf hs]
        exact evalSlots_truthy_frozen st ty (st.categories ty) next.id S now k _ m hm
  · rw [evalCategory_disabled sch now m hen]
    exact ⟨rfl, by simp⟩

lemma evalCategory_untouched (st : AppSettings) (sch : Sched) (now : Int)
    (ty : ScheduleType) (m : FiredMap) (k : String)
    (hne : ∀ e ∈ (evalCategory st sch now ty m).2, e.key ≠ k) :
    getF (evalCategory st sch now ty m).1 k = getF m k := by
  by_cases hen : (st.categories ty).enabled = true
  · cases hf : findNext (sch.get ty) now with
    | none => rw [evalCategory_noNext m hf]
    | some next =>
      cases hs : next.startMs with
      | none => rw [evalCategory_badStart m hf hs]
      | some S =>
        rw [evalCategory_eq_slots m hen hf hs] at hne ⊢
        exact evalSlots_untouched st ty (st.categories ty) next.id S now k _ m hne
  · rw [evalCategory_disabled sch now m hen]

lemma evalCategory_key_count (st : AppSettings) (sch : Sched) (now : Int)
    (ty : ScheduleType) (m : FiredMap) (k : String) (hnow : now ≠ 0) :
    countKey (evalCategory st sch now ty m).2 k ≤ 1 ∧
    (∀ e ∈ (evalCategory st sch now ty m).2, e.key = k →
      getF (evalCategory st sch now ty m).1 k = some now) := by
  by_cases hen : (st.categories ty).enabled = true
  · cases hf : findNext (sch.get ty) now with
    | none => rw [evalCategory_noNext m hf]; exact ⟨by simp [countKey], by simp⟩
    | some next =>
      cases hs : next.startMs with
      | none => rw [evalCategory_badStart m hf hs]; exact ⟨by simp [countKey], by simp⟩
      | some S =>
        rw [evalCategory_eq_slots m hen hf hs]
        exact evalSlots_key_count st ty (st.categories ty) next.id S now k hnow _ m
  · rw [evalCategory_disabled sch now m hen]
    exact ⟨by simp [countKey], by simp⟩

/-! ## Helper lemmas: the type loop and whole ticks -/

lemma evalAll_events_spec (st : AppSettings) (sch : Sched) (now : Int) :
    ∀ (tys : List ScheduleType) (m : FiredMap),
      ∀ e ∈ (evalAll st sch now tys m).2,
        (st.categories e.type).enabled = true ∧
        ∃ next S, findNext (sch.get e.type) now = some next ∧ next.startMs = some S ∧
          now < S ∧ e.occId = next.id ∧
          e.slotIndex < (st.categories e.type).timerCount ∧
          e.key = mkKey e.type next.id e.slotIndex ∧
          S - ((st.categories e.type).timer e.slotIndex).minutesBefore * 60000 ≤ now ∧
          now ≤ S - ((st.categories e.type).timer e.slotIndex).minutesBefore * 60000 + 30000 := by
  intro tys
  induction tys with
  | nil => intro m e he; simp [evalAll] at he
  | cons ty rest ih =>
    intro m e he
    simp only [evalAll, List.mem_append] at he
    rcases he with he | he
    · obtain ⟨hen, next, S, hf, hs, hlt, hty, hoid, hsl, hkey, hw1, hw2⟩ :=
        evalCategory_events_spec st sch now ty m e he
      subst hty
      exact ⟨hen, next, S, hf, hs, hlt, hoid, hsl, hkey, hw1, hw2⟩
    · exact ih _ e he

lemma evalAll_truthy_frozen (st : AppSettings) (sch : Sched) (now : Int) (k : String) :
    ∀ (tys : List ScheduleType) (m : FiredMap), truthy m k = true →
      getF (evalAll st sch now tys m).1 k = getF m k ∧
      ∀ e ∈ (evalAll st sch now tys m).2, e.key ≠ k := by
  intro tys
  induction tys with
  | nil => intro m hm; exact ⟨rfl, by simp [evalAll]⟩
  | cons ty rest ih =>
    intro m hm
    obtain ⟨hc1, hc2⟩ := evalCategory_truthy_frozen st sch now ty m k hm
    have hm' : truthy (evalCategory st sch now ty m).1 k = true :=
      (truthy_congr hc1).trans hm
    obtain ⟨ih1, ih2⟩ := ih (evalCategory st sch now ty m).1 hm'
    refine ⟨?_, ?_⟩
    · show getF (evalAll st sch now rest (evalCategory st sch now ty m).1).1 k = getF m k
      rw [ih1, hc1]
    · intro e he
      simp only [evalAll, List.mem_append] at he
      rcases he with he | he
      · exact hc2 e he
      · exact ih2 e he

lemma evalAll_key_count (st : AppSettings) (sch : Sched) (now : Int) (k : String)
    (hnow : now ≠ 0) :
    ∀ (tys : List ScheduleType) (m : FiredMap),
      countKey (evalAll st sch now tys m).2 k ≤ 1 ∧
      (∀ e ∈ (evalAll st sch now tys m).2, e.key = k →
        getF (evalAll st sch now tys m).1 k = some now) := by
  intro tys
  induction tys with
  | nil =>
    intro m
    refine ⟨by simp [evalAll, countKey], ?_⟩
    intro e he
    simp [evalAll] at he
  | cons ty rest ih =>
    intro m
    by_cases hfired : ∃ e ∈ (evalCategory st sch now ty m).2, e.key = k
    · obtain ⟨e0, he0, hk0⟩ := hfired
      obtain ⟨hcc, hcm⟩ := evalCategory_key_count st sch now ty m k hnow
      have hmap : getF (evalCategory st sch now ty m).1 k = some now := hcm e0 he0 hk0
      have htru : truthy (evalCategory st sch now ty m).1 k = true :=
        truthy_of_getF hmap hnow
      obtain ⟨hr1, hr2⟩ := evalAll_truthy_frozen st sch now k rest
        (evalCategory st sch now ty m).1 htru
      constructor
      · show countKey ((evalCategory st sch now ty m).2 ++
          (evalAll st sch now rest (evalCategory st sch now ty m).1).2) k ≤ 1
        rw [countKey_append, countKey_eq_zero hr2]
        omega
      · intro e he hek
        show getF (evalAll st sch now rest (evalCategory st sch now ty m).1).1 k = some now
        rw [hr1, hmap]
    · push_neg at hfired
      have hc0 : countKey (evalCategory st sch now ty m).2 k = 0 :=
        countKey_eq_zero hfired
      have hpres : getF (evalCategory st sch now ty m).1 k = getF m k :=
        evalCategory_untouched st sch now ty m k hfired
      obtain ⟨ih1, ih2⟩ := ih (evalCategory st sch now ty m).1
      constructor
      · show countKey ((evalCategory st sch now ty m).2 ++
          (evalAll st sch now rest (evalCategory st sch now ty m).1).2) k ≤ 1
        rw [countKey_append, hc0]
        omega
      · intro e he hek
        simp only [evalAll, List.mem_append] at he
        rcases he with he | he
        · exact absurd hek (hfired e he)
        · exact ih2 e he hek

lemma tickStep_events_spec (st : AppSettings) (panic : Bool) (s : Sched) (m : FiredMap)
    (now : Int) :
    ∀ e ∈ (tickStep st panic (some s) m now).2,
      (st.categories e.type).enabled = true ∧
      ∃ next S, findNext (s.get e.type) now = some next ∧ next.startMs = some S ∧
        now < S ∧ e.occId = next.id ∧
        e.slotIndex < (st.categories e.type).timerCount ∧
        e.key = mkKey e.type next.id e.slotIndex ∧
        S - ((st.categories e.type).timer e.slotIndex).minutesBefore * 60000 ≤ now ∧
        now ≤ S - ((st.categories e.type).timer e.slotIndex).minutesBefore * 60000 + 30000 := by
  intro e he
  unfold tickStep at he
  by_cases hp : panic = true
  · simp [hp] at he
  · simp only [Bool.not_eq_true] at hp
    simp only [hp, Bool.false_eq_true, if_false] at he
    exact evalAll_events_spec st s now typesList (pruneFired m now) e he

lemma tickStep_frozen (st : AppSettings) (panic : Bool) (sch : Option Sched) (m : FiredMap)
    (now : Int) (k : String) (hm : truthy (pruneFired m now) k = true) :
    getF (tickStep st panic sch m now).1 k = getF (pruneFired m now) k ∧
    ∀ e ∈ (tickStep st panic sch m now).2, e.key ≠ k := by
  unfold tickStep
  cases sch with
  | none => exact ⟨rfl, by simp⟩
  | some s =>
    by_cases hp : panic = true
    · simp [hp]
    · simp only [Bool.not_eq_true] at hp
      simp only [hp, Bool.false_eq_true, if_false]
      exact evalAll_truthy_frozen st s now k typesList (pruneFired m now) hm

lemma tickStep_key_count (st : AppSettings) (panic : Bool) (sch : Option Sched)
    (m : FiredMap) (now : Int) (k : String) (hnow : now ≠ 0) :
    countKey (tickStep st panic sch m now).2 k ≤ 1 ∧
    (∀ e ∈ (tickStep st panic sch m now).2, e.key = k →
      getF (tickStep st panic sch m now).1 k = some now) := by
  unfold tickStep
  cases sch with
  | none => exact ⟨by simp [countKey], by simp⟩
  | some s =>
    by_cases hp : panic = true
    · simp only [hp, if_true]
      exact ⟨by simp [countKey], by simp⟩
    · simp only [Bool.not_eq_true] at hp
      simp only [hp, Bool.false_eq_true, if_false]
      exact evalAll_key_count st s now k hnow typesList (pruneFired m now)

lemma countTriple_append (evs1 evs2 : List FireEvent) (ty : ScheduleType) (oid : Int)
    (i : Nat) :
    countTriple (evs1 ++ evs2) ty oid i =
      countTriple evs1 ty oid i + countTriple evs2 ty oid i := by
  simp [countTriple, List.filter_append]

lemma countTriple_eq_zero {evs : List FireEvent} {ty : ScheduleType} {oid : Int} {i : Nat}
    (h : ∀ e ∈ evs, ¬ (e.type = ty ∧ e.occId = oid ∧ e.slotIndex = i)) :
    countTriple evs ty oid i = 0 := by
  simp only [countTriple, List.length_eq_zero, List.filter_eq_nil_iff]
  intro e he
  simp [h e he]

lemma tickStep_events_keys (st : AppSettings) (panic : Bool) (sch : Option Sched)
    (m : FiredMap) (now : Int) :
    ∀ e ∈ (tickStep st panic sch m now).2, e.key = mkKey e.type e.occId e.slotIndex := by
  intro e he
  cases sch with
  | none => simp [tickStep] at he
  | some s =>
    obtain ⟨_, next, S, _, _, _, hoid, _, hkey, _⟩ := tickStep_events_spec st panic s m now e he
    rw [hkey, hoid]

lemma runTicks_frozen (st : AppSettings) (panic : Bool) (sch : Option Sched) (k : String) :
    ∀ (ts : List Int) (m : FiredMap) (v : Int), getF m k = some v → v ≠ 0 →
      (∀ t ∈ ts, t - 1000 * 60 * 60 * 12 ≤ v) →
      getF (runTicks st panic sch m ts).1 k = some v ∧
      ∀ e ∈ (runTicks st panic sch m ts).2, e.key ≠ k := by
  intro ts
  induction ts with
  | nil => intro m v hv _ _; exact ⟨hv, by simp [runTicks]⟩
  | cons t rest ih =>
    intro m v hv hvz hts
    have hkeep : getF (pruneFired m t) k = some v :=
      getF_prune_keep hv (hts t (List.mem_cons_self _ _))
    have htru : truthy (pruneFired m t) k = true := truthy_of_getF hkeep hvz
    obtain ⟨hm1, he1⟩ := tickStep_frozen st panic sch m t k htru
    have hmap : getF (tickStep st panic sch m t).1 k = some v := hm1.trans hkeep
    obtain ⟨ihm, ihe⟩ := ih (tickStep st panic sch m t).1 v hmap hvz
      fun t' ht' => hts t' (List.mem_cons_of_mem _ ht')
    refine ⟨ihm, ?_⟩
    intro e he
    simp only [runTicks, List.mem_append] at he
    rcases he with he | he
    · exact he1 e he
    · exact ihe e he

lemma tickStep_no_triple_past (st : AppSettings) (panic : Bool) (s : Sched)
    (ty : ScheduleType) (oid S : Int) (i : Nat)
    (hid : ∀ o ∈ s.get ty, o.id = oid → o.startMs = some S)
    (m : FiredMap) (now : Int) (hpast : S ≤ now) :
    ∀ e ∈ (tickStep st panic (some s) m now).2,
      ¬ (e.type = ty ∧ e.occId = oid ∧ e.slotIndex = i) := by
  intro e he hmatch
  obtain ⟨hty, hoid2, _⟩ := hmatch
  obtain ⟨_, next, S', hf, hs', hlt, hoid, _⟩ := tickStep_events_spec st panic s m now e he
  rw [hty] at hf
  obtain ⟨hmem, _⟩ := (findNext_selects_min_future (s.get ty) now).1 next hf
  have hnid : next.id = oid := by rw [← hoid, hoid2]
  have hS : next.startMs = some S := hid next hmem hnid
  rw [hs'] at hS
  injection hS with hS'
  omega

lemma runTicks_no_triple_past (st : AppSettings) (panic : Bool) (s : Sched)
    (ty : ScheduleType) (oid S : Int) (i : Nat)
    (hid : ∀ o ∈ s.get ty, o.id = oid → o.startMs = some S) :
    ∀ (ts : List Int) (m : FiredMap), (∀ t ∈ ts, S ≤ t) →
      countTriple (runTicks st panic (some s) m ts).2 ty oid i = 0 := by
  intro ts
  induction ts with
  | nil => intro m _; simp [runTicks, countTriple]
  | cons t rest ih =>
    intro m hts
    show countTriple ((tickStep st panic (some s) m t).2 ++
      (runTicks st panic (some s) (tickStep st panic (some s) m t).1 rest).2) ty oid i = 0
    rw [countTriple_append]
    rw [countTriple_eq_zero (tickStep_no_triple_past st panic s ty oid S i hid m t
      (hts t (List.mem_cons_self _ _)))]
    rw [ih (tickStep st panic (some s) m t).1 fun t' ht' => hts t' (List.mem_cons_of_mem _ ht')]

lemma runTicks_no_refire (st : AppSettings) (panic : Bool) (s : Sched)
    (ty : ScheduleType) (oid S : Int) (i : Nat)
    (hid : ∀ o ∈ s.get ty, o.id = oid → o.startMs = some S)
    (hlead : ((st.categories ty).timer i).minutesBefore * 60000 ≤ 43200000) :
    ∀ (ts : List Int) (m : FiredMap) (t1 : Int),
      ts.Pairwise (· ≤ ·) →
      getF m (mkKey ty oid i) = some t1 → t1 ≠ 0 →
      S - ((st.categories ty).timer i).minutesBefore * 60000 ≤ t1 →
      countTriple (runTicks st panic (some s) m ts).2 ty oid i = 0 := by
  intro ts
  induction ts with
  | nil => intro m t1 _ _ _ _; simp [runTicks, countTriple]
  | cons t rest ih =>
    intro m t1 hsort hv hvz htrig
    have hsort' := (List.pairwise_cons.mp hsort).2
    have hhead := (List.pairwise_cons.mp hsort).1
    show countTriple ((tickStep st panic (some s) m t).2 ++
      (runTicks st panic (some s) (tickStep st panic (some s) m t).1 rest).2) ty oid i = 0
    rw [countTriple_append]
    by_cases hret : t - 1000 * 60 * 60 * 12 ≤ t1
    · -- the recorded entry survives this tick's prune, so the key is frozen
      have hkeep : getF (pruneFired m t) (mkKey ty oid i) = some t1 :=
        getF_prune_keep hv hret
      have htru : truthy (pruneFired m t) (mkKey ty oid i) = true := truthy_of_getF hkeep hvz
      obtain ⟨hm1, he1⟩ := tickStep_frozen st panic (some s) m t (mkKey ty oid i) htru
      have hc1 : countTriple (tickStep st panic (some s) m t).2 ty oid i = 0 := by
        refine countTriple_eq_zero ?_
        intro e he hmatch
        obtain ⟨h1, h2, h3⟩ := hmatch
        have hk := tickStep_events_keys st panic (some s) m t e he
        rw [h1, h2, h3] at hk
        exact he1 e he hk
      rw [hc1]
      rw [ih (tickStep st panic (some s) m t).1 t1 hsort' (hm1.trans hkeep) hvz htrig]
    · -- retention expired: the occurrence's start time is already in the past
      have hpast : S ≤ t := by omega
      rw [countTriple_eq_zero (tickStep_no_triple_past st panic s ty oid S i hid m t hpast)]
      rw [runTicks_no_triple_past st panic s ty oid S i hid rest _
        fun t' ht' => le_trans hpast (hhead t' ht')]

/-- C1 (amended): over any fixed schedule and settings, for tick sequences at
positive, nondecreasing times, and provided occurrence ids within the
category determine a unique start time and the slot's lead time does not
exceed the registry's 12-hour retention, a given
`(category, occurrenceId, slotIndex)` dispatches at most once across the
whole tick sequence. -/
theorem fired_key_fires_at_most_once
    (st : AppSettings) (panic : Bool) (s : Sched) (m : FiredMap)
    (ty : ScheduleType) (oid S : Int) (i : Nat) (ts : List Int)
    (hpos : ∀ t ∈ ts, 0 < t)
    (hsort : ts.Pairwise (· ≤ ·))
    (hid : ∀ o ∈ s.get ty, o.id = oid → o.startMs = some S)
    (hlead : ((st.categories ty).timer i).minutesBefore * 60000 ≤ 43200000) :
    countTriple (runTicks st panic (some s) m ts).2 ty oid i ≤ 1 := by
  revert hpos hsort
  induction ts generalizing m with
  | nil => intro _ _; simp [runTicks, countTriple]
  | cons t rest ih =>
    intro hpos hsort
    have hpos' : ∀ t' ∈ rest, (0 : Int) < t' := fun t' h => hpos t' (List.mem_cons_of_mem _ h)
    have hsort' := (List.pairwise_cons.mp hsort).2
    have htpos : (0 : Int) < t := hpos t (List.mem_cons_self _ _)
    show countTriple ((tickStep st panic (some s) m t).2 ++
      (runTicks st panic (some s) (tickStep st panic (some s) m t).1 rest).2) ty oid i ≤ 1
    rw [countTriple_append]
    by_cases hfired : ∃ e ∈ (tickStep st panic (some s) m t).2,
        e.type = ty ∧ e.occId = oid ∧ e.slotIndex = i
    · obtain ⟨e, he, hm1, hm2, hm3⟩ := hfired
      have hk : e.key = mkKey ty oid i := by
        have hk0 := tickStep_events_keys st panic (some s) m t e he
        rw [hm1, hm2, hm3] at hk0
        exact hk0
      have hkc := tickStep_key_count st panic (some s) m t (mkKey ty oid i)
        (by omega : t ≠ 0)
      have hc1 : countTriple (tickStep st panic (some s) m t).2 ty oid i ≤ 1 :=
        le_trans (countTriple_le_countKey (tickStep_events_keys st panic (some s) m t)) hkc.1
      have hmap : getF (tickStep st panic (some s) m t).1 (mkKey ty oid i) = some t :=
        hkc.2 e he hk
      obtain ⟨_, next, S', hf, hs', hlt, hoid, _, _, hw1, _⟩ :=
        tickStep_events_spec st panic s m t e he
      rw [hm1] at hf
      obtain ⟨hmem, _⟩ := (findNext_selects_min_future (s.get ty) t).1 next hf
      have hnid : next.id = oid := by rw [← hoid, hm2]
      have hS : next.startMs = some S := hid next hmem hnid
      rw [hs'] at hS
      injection hS with hSeq
      have htrig : S - ((st.categories ty).timer i).minutesBefore * 60000 ≤ t := by
        rw [hm1, hm3] at hw1
        omega
      have hc2 := runTicks_no_refire st panic s ty oid S i hid hlead rest
        (tickStep st panic (some s) m t).1 t hsort' hmap (by omega) htrig
      omega
    · have hc1 : countTriple (tickStep st panic (some s) m t).2 ty oid i = 0 :=
        countTriple_eq_zero fun e he hmatch => hfired ⟨e, he, hmatch⟩
      rw [hc1]
      simpa using ih (tickStep st panic (some s) m t).1 hpos' hsort'

/-- Counterexample to C1 as stated: with a single helltide occurrence
starting at 60000 ms and one 1-minute slot, ticks at times 0 and 1 both lie
in the fire window; the fire at time 0 records the key with value 0, which
is falsy for the JS truthiness test `if (firedRef.current[key])`, so the
tick at time 1 re-fires the very same `(category, occurrenceId, slotIndex)`
— the dispatch happens twice, not at most once. -/
theorem fired_key_refires_after_zero_time_record :
    countTriple
      (runTicks
        ⟨true, true,
          ⟨true, 1, (⟨1, false, .beep, 880⟩, ⟨10, false, .double, 880⟩,
            ⟨5, false, .triple, 880⟩)⟩,
          ⟨false, 3, (⟨30, false, .beep, 880⟩, ⟨10, false, .double, 880⟩,
            ⟨5, false, .triple, 880⟩)⟩,
          ⟨false, 3, (⟨30, false, .beep, 880⟩, ⟨10, false, .double, 880⟩,
            ⟨5, false, .triple, 880⟩)⟩⟩
        false (some ⟨[⟨1, 0, some 60000⟩], [], []⟩) [] [0, 1]).2
      .helltide 1 0 = 2 := by
  decide

/-- Witness for the amended C1 at a concrete input: same schedule and
settings, but ticks at the positive nondecreasing times 1000 and 2000; the
slot fires at most once. -/
theorem fired_key_fires_at_most_once_witness :
    (∀ t ∈ [(1000 : Int), 2000], 0 < t) ∧
    countTriple
      (runTicks
        ⟨true, true,
          ⟨true, 1, (⟨1, false, .beep, 880⟩, ⟨10, false, .double, 880⟩,
            ⟨5, false, .triple, 880⟩)⟩,
          ⟨false, 3, (⟨30, false, .beep, 880⟩, ⟨10, false, .double, 880⟩,
            ⟨5, false, .triple, 880⟩)⟩,
          ⟨false, 3, (⟨30, false, .beep, 880⟩, ⟨10, false, .double, 880⟩,
            ⟨5, false, .triple, 880⟩)⟩⟩
        false (some ⟨[⟨1, 0, some 60000⟩], [], []⟩) [] [1000, 2000]).2
      .helltide 1 0 ≤ 1 :=
  ⟨by decide,
   fired_key_fires_at_most_once _ false _ [] .helltide 1 60000 0 [1000, 2000]
     (by decide) (by decide) (by decide) (by decide)⟩

/-- C3: over a fixed schedule holding one occurrence for the category, if no
tick of the sequence lands inside slot `i`'s fire window
`[triggerAt, triggerAt + 30s]` (for instance when `now` jumps from before
`triggerAt` to past `triggerAt + 30s`), slot `i` never fires for that
occurrence — there is no backfill; evaluation is total, so no error is
raised either. -/
theorem missed_window_never_fires
    (st : AppSettings) (panic : Bool) (s : Sched) (m : FiredMap)
    (ty : ScheduleType) (occ : Occ) (S : Int) (i : Nat) (ts : List Int)
    (hocc : s.get ty = [occ]) (hS : occ.startMs = some S)
    (hwin : ∀ t ∈ ts,
      t < S - ((st.categories ty).timer i).minutesBefore * 60000 ∨
      S - ((st.categories ty).timer i).minutesBefore * 60000 + 30000 < t) :
    countTriple (runTicks st panic (some s) m ts).2 ty occ.id i = 0 := by
  revert hwin
  induction ts generalizing m with
  | nil => intro _; simp [runTicks, countTriple]
  | cons t rest ih =>
    intro hwin
    show countTriple ((tickStep st panic (some s) m t).2 ++
      (runTicks st panic (some s) (tickStep st panic (some s) m t).1 rest).2) ty occ.id i = 0
    rw [countTriple_append]
    have hc1 : countTriple (tickStep st panic (some s) m t).2 ty occ.id i = 0 := by
      refine countTriple_eq_zero ?_
      intro e he hmatch
      obtain ⟨hm1, hm2, hm3⟩ := hmatch
      obtain ⟨_, next, S', hf, hs', hlt, hoid, _, _, hw1, hw2⟩ :=
        tickStep_events_spec st panic s m t e he
      rw [hm1] at hf
      obtain ⟨hmem, _⟩ := (findNext_selects_min_future (s.get ty) t).1 next hf
      rw [hocc] at hmem
      simp only [List.mem_singleton] at hmem
      subst hmem
      rw [hS] at hs'
      injection hs' with hSeq
      rw [hm1, hm3] at hw1 hw2
      rcases hwin t (List.mem_cons_self _ _) with hlo | hhi
      · omega
      · omega
    rw [hc1]
    rw [ih (tickStep st panic (some s) m t).1 fun t' ht' => hwin t' (List.mem_cons_of_mem _ ht')]

/-- Witness for C3 at a concrete input: one occurrence starting at 600000 ms
and a 1-minute slot (window `[540000, 570000]`); ticks at 500000 (before the
window) and 580000 (after it) — the slot never fires. -/
theorem missed_window_never_fires_witness :
    (∀ t ∈ [(500000 : Int), 580000], t < 540000 ∨ (570000 : Int) < t) ∧
    countTriple
      (runTicks
        ⟨true, true,
          ⟨true, 1, (⟨1, false, .beep, 880⟩, ⟨10, false, .double, 880⟩,
            ⟨5, false, .triple, 880⟩)⟩,
          ⟨false, 3, (⟨30, false, .beep, 880⟩, ⟨10, false, .double, 880⟩,
            ⟨5, false, .triple, 880⟩)⟩,
          ⟨false, 3, (⟨30, false, .beep, 880⟩, ⟨10, false, .double, 880⟩,
            ⟨5, false, .triple, 880⟩)⟩⟩
        false (some ⟨[⟨1, 0, some 600000⟩], [], []⟩) [] [500000, 580000]).2
      .helltide 1 0 = 0 :=
  ⟨by decide,
   missed_window_never_fires _ false _ [] .helltide ⟨1, 0, some 600000⟩ 600000 0
     [500000, 580000] rfl rfl (by decide)⟩

/-! ## Helper lemmas: single-occurrence, single-slot computations -/

lemma findNext_single {occ : Occ} {S now : Int} (hS : occ.startMs = some S)
    (hfut : now < S) : findNext [occ] now = some occ := by
  simp [findNext, findNextAux, hS, not_le.mpr hfut]

lemma evalSlots_single (st : AppSettings) (ty : ScheduleType) (cat : CategorySettings)
    (oid S now : Int) (m : FiredMap) :
    evalSlots st ty cat oid S now [0] m =
      if S - (cat.timer 0).minutesBefore * 60000 ≤ now ∧
          now ≤ S - (cat.timer 0).minutesBefore * 60000 + 30000 ∧
          truthy m (mkKey ty oid 0) = false
      then (recordFired m (mkKey ty oid 0) now, [mkFireEvent st ty oid 0 (cat.timer 0)])
      else (m, []) := by
  simp only [evalSlots]
  by_cases hw : now < S - (cat.timer 0).minutesBefore * 60000 ∨
      S - (cat.timer 0).minutesBefore * 60000 + 30000 < now
  · have hcond : ¬ (S - (cat.timer 0).minutesBefore * 60000 ≤ now ∧
        now ≤ S - (cat.timer 0).minutesBefore * 60000 + 30000 ∧
        truthy m (mkKey ty oid 0) = false) := by
      rintro ⟨ha, hb, _⟩
      omega
    rw [if_pos hw, if_neg hcond]
  · rw [if_neg hw]
    by_cases ht : truthy m (mkKey ty oid 0) = true
    · have hcond : ¬ (S - (cat.timer 0).minutesBefore * 60000 ≤ now ∧
          now ≤ S - (cat.timer 0).minutesBefore * 60000 + 30000 ∧
          truthy m (mkKey ty oid 0) = false) := by
        rintro ⟨_, _, hc⟩
        rw [ht] at hc
        cases hc
      rw [if_pos ht, if_neg hcond]
    · have hw' : ¬ now < S - (cat.timer 0).minutesBefore * 60000 ∧
          ¬ S - (cat.timer 0).minutesBefore * 60000 + 30000 < now := not_or.mp hw
      rw [if_neg ht, if_pos ⟨by omega, by omega, by simpa using ht⟩]

/-- C2: over a schedule holding exactly one occurrence (for the category;
the other categories empty), with the category enabled and a single active
slot of lead `L` minutes and the occurrence starting at a strictly future
`S`, a tick at `now` fires exactly the slot's event if and only if
`S - L*60s ≤ now ≤ S - L*60s + 30s` and the slot's key is not recorded in
the (pruned) fired registry — otherwise the tick emits nothing. -/
theorem slot_fire_window_iff
    (st : AppSettings) (sch : Sched) (occ : Occ) (S now : Int) (m : FiredMap)
    (ty : ScheduleType)
    (h1 : sch.get ty = [occ]) (h2 : ∀ t', t' ≠ ty → sch.get t' = [])
    (h3 : occ.startMs = some S) (h4 : now < S)
    (h5 : (st.categories ty).enabled = true) (h6 : (st.categories ty).timerCount = 1) :
    (tickStep st false (some sch) m now).2 =
      if S - ((st.categories ty).timer 0).minutesBefore * 60000 ≤ now ∧
          now ≤ S - ((st.categories ty).timer 0).minutesBefore * 60000 + 30000 ∧
          truthy (pruneFired m now) (mkKey ty occ.id 0) = false
      then [mkFireEvent st ty occ.id 0 ((st.categories ty).timer 0)]
      else [] := by
  have hfind : findNext (sch.get ty) now = some occ := by
    rw [h1]
    exact findNext_single h3 h4
  have hty : ∀ (mm : FiredMap), evalCategory st sch now ty mm =
      evalSlots st ty (st.categories ty) occ.id S now [0] mm := by
    intro mm
    rw [evalCategory_eq_slots mm h5 hfind h3, h6]
    rfl
  have hoth : ∀ (t' : ScheduleType), t' ≠ ty → ∀ (mm : FiredMap),
      evalCategory st sch now t' mm = (mm, []) := by
    intro t' ht' mm
    refine evalCategory_noNext mm ?_
    rw [h2 t' ht']
    rfl
  show (evalAll st sch now typesList (pruneFired m now)).2 = _
  cases ty with
  | helltide =>
    simp only [typesList, evalAll, hty, hoth .legion (by decide), hoth .world_boss (by decide),
      evalSlots_single, List.append_nil]
    split <;> simp
  | legion =>
    simp only [typesList, evalAll, hty, hoth .helltide (by decide), hoth .world_boss (by decide),
      evalSlots_single, List.append_nil]
    split <;> simp
  | world_boss =>
    simp only [typesList, evalAll, hty, hoth .helltide (by decide), hoth .legion (by decide),
      evalSlots_single, List.append_nil]
    split <;> simp

/-- Witness for C2 at the spec's concrete scenario: occurrence `{id 1}`
starting at `T = 10^9` ms, single slot with `leadMinutes = 10`; a tick at
`now = T - 10m + 5s` fires the slot once, and a tick at `now = T - 10m + 40s`
(past the 30 s window) fires nothing. -/
theorem slot_fire_window_iff_witness :
    (tickStep
      ⟨true, true,
        ⟨true, 1, (⟨10, false, .beep, 880⟩, ⟨10, false, .double, 880⟩,
          ⟨5, false, .triple, 880⟩)⟩,
        ⟨false, 3, (⟨30, false, .beep, 880⟩, ⟨10, false, .double, 880⟩,
          ⟨5, false, .triple, 880⟩)⟩,
        ⟨false, 3, (⟨30, false, .beep, 880⟩, ⟨10, false, .double, 880⟩,
          ⟨5, false, .triple, 880⟩)⟩⟩
      false (some ⟨[⟨1, 0, some 1000000000⟩], [], []⟩) [] 999405000).2 =
      [⟨"helltide:1:0", .helltide, 1, 0, true, true, false⟩] ∧
    (tickStep
      ⟨true, true,
        ⟨true, 1, (⟨10, false, .beep, 880⟩, ⟨10, false, .double, 880⟩,
          ⟨5, false, .triple, 880⟩)⟩,
        ⟨false, 3, (⟨30, false, .beep, 880⟩, ⟨10, false, .double, 880⟩,
          ⟨5, false, .triple, 880⟩)⟩,
        ⟨false, 3, (⟨30, false, .beep, 880⟩, ⟨10, false, .double, 880⟩,
          ⟨5, false, .triple, 880⟩)⟩⟩
      false (some ⟨[⟨1, 0, some 1000000000⟩], [], []⟩) [] 999440000).2 = [] := by
  constructor
  · rw [slot_fire_window_iff
      ⟨true, true,
        ⟨true, 1, (⟨10, false, .beep, 880⟩, ⟨10, false, .double, 880⟩,
          ⟨5, false, .triple, 880⟩)⟩,
        ⟨false, 3, (⟨30, false, .beep, 880⟩, ⟨10, false, .double, 880⟩,
          ⟨5, false, .triple, 880⟩)⟩,
        ⟨false, 3, (⟨30, false, .beep, 880⟩, ⟨10, false, .double, 880⟩,
          ⟨5, false, .triple, 880⟩)⟩⟩
      ⟨[⟨1, 0, some 1000000000⟩], [], []⟩ ⟨1, 0, some 1000000000⟩ 1000000000 999405000 [] .helltide
      rfl (fun t' ht' => by
        cases t' with
        | helltide => exact absurd rfl ht'
        | legion => rfl
        | world_boss => rfl)
      rfl (by decide) rfl rfl]
    decide
  · rw [slot_fire_window_iff
      ⟨true, true,
        ⟨true, 1, (⟨10, false, .beep, 880⟩, ⟨10, false, .double, 880⟩,
          ⟨5, false, .triple, 880⟩)⟩,
        ⟨false, 3, (⟨30, false, .beep, 880⟩, ⟨10, false, .double, 880⟩,
          ⟨5, false, .triple, 880⟩)⟩,
        ⟨false, 3, (⟨30, false, .beep, 880⟩, ⟨10, false, .double, 880⟩,
          ⟨5, false, .triple, 880⟩)⟩⟩
      ⟨[⟨1, 0, some 1000000000⟩], [], []⟩ ⟨1, 0, some 1000000000⟩ 1000000000 999440000 [] .helltide
      rfl (fun t' ht' => by
        cases t' with
        | helltide => exact absurd rfl ht'
        | legion => rfl
        | world_boss => rfl)
      rfl (by decide) rfl rfl]
    decide

/-! ## Helper lemmas: catch-up slot selection -/

/-- The source's `candidates.sort(...)[0]` picks a candidate of minimal `minutesBefore`. -/
lemma pickCatchUp_spec (cat : CategorySettings) :
    ∀ (l : List Nat) (acc : Option Nat),
      (pickCatchUp cat l acc = none → l = [] ∧ acc = none) ∧
      (∀ c, pickCatchUp cat l acc = some c →
        (c ∈ l ∨ acc = some c) ∧
        (∀ j ∈ l, (cat.timer c).minutesBefore ≤ (cat.timer j).minutesBefore) ∧
        (∀ a, acc = some a → (cat.timer c).minutesBefore ≤ (cat.timer a).minutesBefore)) := by
  intro l
  induction l with
  | nil =>
    intro acc
    constructor
    · intro h
      cases acc with
      | none => exact ⟨rfl, rfl⟩
      | some a => simp [pickCatchUp] at h
    · intro c h
      cases acc with
      | none => simp [pickCatchUp] at h
      | some a =>
        simp only [pickCatchUp] at h
        refine ⟨Or.inr h, by simp, ?_⟩
        intro a' ha'
        injection h with h'
        injection ha' with ha''
        subst h'
        subst ha''
        exact le_refl _
  | cons j rest ih =>
    intro acc
    cases acc with
    | none =>
      constructor
      · intro h
        simp only [pickCatchUp] at h
        obtain ⟨_, h2⟩ := (ih (some j)).1 h
        cases h2
      · intro c h
        simp only [pickCatchUp] at h
        obtain ⟨hmem, hall, hacc⟩ := (ih (some j)).2 c h
        have hcj : (cat.timer c).minutesBefore ≤ (cat.timer j).minutesBefore := hacc j rfl
        refine ⟨?_, ?_, by simp⟩
        · rcases hmem with hm | hm
          · exact Or.inl (List.mem_cons_of_mem _ hm)
          · injection hm with hm'
            exact Or.inl (by simp [hm'])
        · intro j' hj'
          rcases List.mem_cons.mp hj' with rfl | hj''
          · exact hcj
          · exact hall j' hj''
    | some a =>
      by_cases hlt : (cat.timer j).minutesBefore < (cat.timer a).minutesBefore
      · constructor
        · intro h
          simp only [pickCatchUp, if_pos hlt] at h
          obtain ⟨_, h2⟩ := (ih (some j)).1 h
          cases h2
        · intro c h
          simp only [pickCatchUp, if_pos hlt] at h
          obtain ⟨hmem, hall, hacc⟩ := (ih (some j)).2 c h
          have hcj : (cat.timer c).minutesBefore ≤ (cat.timer j).minutesBefore := hacc j rfl
          refine ⟨?_, ?_, ?_⟩
          · rcases hmem with hm | hm
            · exact Or.inl (List.mem_cons_of_mem _ hm)
            · injection hm with hm'
              exact Or.inl (by simp [hm'])
          · intro j' hj'
            rcases List.mem_cons.mp hj' with rfl | hj''
            · exact hcj
            · exact hall j' hj''
          · intro a' ha'
            injection ha' with ha''
            subst ha''
            omega
      · constructor
        · intro h
          simp only [pickCatchUp, if_neg hlt] at h
          obtain ⟨_, h2⟩ := (ih (some a)).1 h
          cases h2
        · intro c h
          simp only [pickCatchUp, if_neg hlt] at h
          obtain ⟨hmem, hall, hacc⟩ := (ih (some a)).2 c h
          have hca : (cat.timer c).minutesBefore ≤ (cat.timer a).minutesBefore := hacc a rfl
          refine ⟨?_, ?_, ?_⟩
          · rcases hmem with hm | hm
            · exact Or.inl (List.mem_cons_of_mem _ hm)
            · exact Or.inr hm
          · intro j' hj'
            rcases List.mem_cons.mp hj' with rfl | hj''
            · omega
            · exact hall j' hj''
          · intro a' ha'
            injection ha' with ha''
            subst ha''
            exact hca

lemma catchUp_noNext {st : AppSettings} {s : Sched} {ty : ScheduleType} {tickNow : Int}
    (m : FiredMap) (nowMs : Int) (h : findNext (s.get ty) tickNow = none) :
    catchUp st (some s) m ty tickNow nowMs = (m, none) := by
  simp only [catchUp, h]

lemma catchUp_stale {st : AppSettings} {s : Sched} {ty : ScheduleType} {tickNow : Int}
    {next : Occ} {S : Int} (m : FiredMap) (nowMs : Int)
    (hf : findNext (s.get ty) tickNow = some next) (hS : next.startMs = some S)
    (hrem : S - nowMs ≤ 0) :
    catchUp st (some s) m ty tickNow nowMs = (m, none) := by
  simp only [catchUp, hf, hS]
  rw [if_neg (by omega : ¬ S - nowMs > 0)]

lemma catchUp_noCand {st : AppSettings} {s : Sched} {ty : ScheduleType} {tickNow : Int}
    {next : Occ} {S : Int} (m : FiredMap) (nowMs : Int)
    (hf : findNext (s.get ty) tickNow = some next) (hS : next.startMs = some S)
    (hrem : 0 < S - nowMs)
    (hp : pickCatchUp (st.categories ty)
      (catchUpCandidates (st.categories ty) (S - nowMs)) none = none) :
    catchUp st (some s) m ty tickNow nowMs = (m, none) := by
  simp only [catchUp, hf, hS]
  rw [if_pos (by omega : S - nowMs > 0), hp]

lemma catchUp_picked_fired {st : AppSettings} {s : Sched} {ty : ScheduleType} {tickNow : Int}
    {next : Occ} {S : Int} {c : Nat} (m : FiredMap) (nowMs : Int)
    (hf : findNext (s.get ty) tickNow = some next) (hS : next.startMs = some S)
    (hrem : 0 < S - nowMs)
    (hp : pickCatchUp (st.categories ty)
      (catchUpCandidates (st.categories ty) (S - nowMs)) none = some c)
    (ht : truthy m (mkKey ty next.id c) = true) :
    catchUp st (some s) m ty tickNow nowMs = (m, none) := by
  simp only [catchUp, hf, hS]
  rw [if_pos (by omega : S - nowMs > 0), hp]
  simp only [ht, if_true]

lemma catchUp_picked_fires {st : AppSettings} {s : Sched} {ty : ScheduleType} {tickNow : Int}
    {next : Occ} {S : Int} {c : Nat} (m : FiredMap) (nowMs : Int)
    (hf : findNext (s.get ty) tickNow = some next) (hS : next.startMs = some S)
    (hrem : 0 < S - nowMs)
    (hp : pickCatchUp (st.categories ty)
      (catchUpCandidates (st.categories ty) (S - nowMs)) none = some c)
    (ht : truthy m (mkKey ty next.id c) = false) :
    catchUp st (some s) m ty tickNow nowMs =
      (recordFired m (mkKey ty next.id c) nowMs,
        some (mkFireEvent st ty next.id c ((st.categories ty).timer c))) := by
  simp only [catchUp, hf, hS]
  rw [if_pos (by omega : S - nowMs > 0), hp]
  simp only [ht, Bool.false_eq_true, if_false]

/-- Counterexample to C4 as stated: category enabled with slots of
`[30, 10, 5]` minutes, next occurrence in 3 minutes (`remaining = 180000 ms`
at `nowMs = 1000`), and the 5-minute slot (index 2) already fired for this
occurrence. All three slots are overdue candidates and slot 1 (10 minutes)
has not fired — the claim demands that catch-up fire slot 1 — yet the code
only examines the smallest-lead candidate and, finding it fired, fires
nothing at all. -/
theorem catchUp_no_fallback_counterexample :
    catchUp
      ⟨true, true,
        ⟨true, 3, (⟨30, false, .beep, 880⟩, ⟨10, false, .double, 880⟩,
          ⟨5, false, .triple, 880⟩)⟩,
        ⟨false, 3, (⟨30, false, .beep, 880⟩, ⟨10, false, .double, 880⟩,
          ⟨5, false, .triple, 880⟩)⟩,
        ⟨false, 3, (⟨30, false, .beep, 880⟩, ⟨10, false, .double, 880⟩,
          ⟨5, false, .triple, 880⟩)⟩⟩
      (some ⟨[⟨1, 0, some 181000⟩], [], []⟩) [("helltide:1:2", 500)] .helltide 1000 1000 =
      ([("helltide:1:2", 500)], none) ∧
    truthy [("helltide:1:2", 500)] "helltide:1:1" = false ∧
    (180000 : Int) ≤ 10 * 60000 := by
  refine ⟨?_, by decide, by decide⟩
  decide

/-- C4 (amended): when a category is enabled with a next occurrence at
positive remaining time, catch-up considers the active slots whose
`leadMinutes * 60s ≥ remaining` and examines only the candidate with the
smallest `leadMinutes`: if that candidate's key is unrecorded it fires
exactly that slot and records its key at `nowMs`, and the normal tick then
never fires the same key again while the registry entry is retained (ticks
within the 12-hour retention of `nowMs ≠ 0`); if the smallest-lead candidate
has already fired, catch-up is a no-op — it does not fall back to the
next-smallest unfired candidate; it is also a no-op when no next occurrence
exists, when its start time is unparseable, or when `remaining ≤ 0`. -/
theorem catchUp_fires_smallest_overdue
    (st : AppSettings) (s : Sched) (m : FiredMap) (ty : ScheduleType) (tickNow : Int) :
    (∀ nowMs, findNext (s.get ty) tickNow = none →
      catchUp st (some s) m ty tickNow nowMs = (m, none)) ∧
    (∀ nowMs, catchUp st none m ty tickNow nowMs = (m, none)) ∧
    (∀ next nowMs, findNext (s.get ty) tickNow = some next → next.startMs = none →
      catchUp st (some s) m ty tickNow nowMs = (m, none)) ∧
    (∀ next S nowMs, findNext (s.get ty) tickNow = some next → next.startMs = some S →
      (S - nowMs ≤ 0 → catchUp st (some s) m ty tickNow nowMs = (m, none)) ∧
      (0 < S - nowMs →
        (pickCatchUp (st.categories ty)
            (catchUpCandidates (st.categories ty) (S - nowMs)) none = none →
          catchUp st (some s) m ty tickNow nowMs = (m, none)) ∧
        (∀ c, pickCatchUp (st.categories ty)
            (catchUpCandidates (st.categories ty) (S - nowMs)) none = some c →
          (c ∈ catchUpCandidates (st.categories ty) (S - nowMs) ∧
            ∀ j ∈ catchUpCandidates (st.categories ty) (S - nowMs),
              ((st.categories ty).timer c).minutesBefore ≤
                ((st.categories ty).timer j).minutesBefore) ∧
          (truthy m (mkKey ty next.id c) = true →
            catchUp st (some s) m ty tickNow nowMs = (m, none)) ∧
          (truthy m (mkKey ty next.id c) = false →
            catchUp st (some s) m ty tickNow nowMs =
              (recordFired m (mkKey ty next.id c) nowMs,
                some (mkFireEvent st ty next.id c ((st.categories ty).timer c))) ∧
            (nowMs ≠ 0 →
              ∀ (st' : AppSettings) (panic : Bool) (sch' : Option Sched) (ts : List Int),
                (∀ t ∈ ts, t - 1000 * 60 * 60 * 12 ≤ nowMs) →
                ∀ e ∈ (runTicks st' panic sch'
                    (recordFired m (mkKey ty next.id c) nowMs) ts).2,
                  e.key ≠ mkKey ty next.id c))))) := by
  refine ⟨fun nowMs h => catchUp_noNext m nowMs h, fun nowMs => rfl, ?_, ?_⟩
  · intro next nowMs hf hS
    simp only [catchUp, hf, hS]
  · intro next S nowMs hf hS
    refine ⟨fun h => catchUp_stale m nowMs hf hS h, fun hrem => ⟨?_, ?_⟩⟩
    · intro hp
      exact catchUp_noCand m nowMs hf hS hrem hp
    · intro c hp
      obtain ⟨hmem, hall, _⟩ := (pickCatchUp_spec (st.categories ty)
        (catchUpCandidates (st.categories ty) (S - nowMs)) none).2 c hp
      refine ⟨⟨?_, hall⟩, ?_, ?_⟩
      · rcases hmem with hm | hm
        · exact hm
        · cases hm
      · intro ht
        exact catchUp_picked_fired m nowMs hf hS hrem hp ht
      · intro ht
        refine ⟨catchUp_picked_fires m nowMs hf hS hrem hp ht, ?_⟩
        intro hnz st' panic sch' ts hts
        have hget : getF (recordFired m (mkKey ty next.id c) nowMs)
            (mkKey ty next.id c) = some nowMs := getF_record_self m _ nowMs
        exact (runTicks_frozen st' panic sch' (mkKey ty next.id c) ts
          (recordFired m (mkKey ty next.id c) nowMs) nowMs hget hnz hts).2

/-- Witness for the amended C4 at the spec's scenario: slots `[30, 10, 5]`
minutes, remaining 3 minutes, empty registry — catch-up fires exactly the
5-minute slot (index 2) immediately, recording its key; a subsequent normal
tick inside the same window does not fire that key again. -/
theorem catchUp_fires_smallest_overdue_witness :
    catchUp
      ⟨true, true,
        ⟨true, 3, (⟨30, false, .beep, 880⟩, ⟨10, false, .double, 880⟩,
          ⟨5, false, .triple, 880⟩)⟩,
        ⟨false, 3, (⟨30, false, .beep, 880⟩, ⟨10, false, .double, 880⟩,
          ⟨5, false, .triple, 880⟩)⟩,
        ⟨false, 3, (⟨30, false, .beep, 880⟩, ⟨10, false, .double, 880⟩,
          ⟨5, false, .triple, 880⟩)⟩⟩
      (some ⟨[⟨1, 0, some 181000⟩], [], []⟩) [] .helltide 1000 1000 =
      ([("helltide:1:2", 1000)], some ⟨"helltide:1:2", .helltide, 1, 2, true, true, false⟩) ∧
    (∀ e ∈ (runTicks
      ⟨true, true,
        ⟨true, 3, (⟨30, false, .beep, 880⟩, ⟨10, false, .double, 880⟩,
          ⟨5, false, .triple, 880⟩)⟩,
        ⟨false, 3, (⟨30, false, .beep, 880⟩, ⟨10, false, .double, 880⟩,
          ⟨5, false, .triple, 880⟩)⟩,
        ⟨false, 3, (⟨30, false, .beep, 880⟩, ⟨10, false, .double, 880⟩,
          ⟨5, false, .triple, 880⟩)⟩⟩
      false (some ⟨[⟨1, 0, some 181000⟩], [], []⟩) [("helltide:1:2", 1000)] [2000]).2,
      e.key ≠ "helltide:1:2") := by
  have h := catchUp_fires_smallest_overdue
    ⟨true, true,
      ⟨true, 3, (⟨30, false, .beep, 880⟩, ⟨10, false, .double, 880⟩,
        ⟨5, false, .triple, 880⟩)⟩,
      ⟨false, 3, (⟨30, false, .beep, 880⟩, ⟨10, false, .double, 880⟩,
        ⟨5, false, .triple, 880⟩)⟩,
      ⟨false, 3, (⟨30, false, .beep, 880⟩, ⟨10, false, .double, 880⟩,
        ⟨5, false, .triple, 880⟩)⟩⟩
    ⟨[⟨1, 0, some 181000⟩], [], []⟩ [] .helltide 1000
  have h4 := (h.2.2.2 ⟨1, 0, some 181000⟩ 181000 1000 (by decide) rfl).2 (by decide)
  have hc := (h4.2 2 (by decide)).2.2 (by decide)
  refine ⟨hc.1, ?_⟩
  intro e he
  exact hc.2 (by decide) _ false _ [2000] (by decide) e he

/-! ## Helper lemmas: settings normalization -/

lemma clampUnit_bounds (v : Option JVal) (fb : ℚ) (h0 : 0 ≤ fb) (h1 : fb ≤ 1) :
    0 ≤ clampUnit v fb ∧ clampUnit v fb ≤ 1 := by
  unfold clampUnit
  split
  · exact ⟨le_max_left _ _, max_le zero_le_one (min_le_left _ _)⟩
  · exact ⟨h0, h1⟩

lemma clampInt_bounds (v : Option JVal) (fb lo hi : Int) (hl : lo ≤ fb) (hh : fb ≤ hi) :
    lo ≤ clampInt v fb lo hi ∧ clampInt v fb lo hi ≤ hi := by
  unfold clampInt
  split
  · exact ⟨le_max_left _ _, max_le (le_trans hl hh) (min_le_left _ _)⟩
  · exact ⟨hl, hh⟩

lemma normalizeTimer_bounds (raw : Option JVal) (fb : TimerSettings)
    (h1 : 1 ≤ fb.minutesBefore) (h2 : fb.minutesBefore ≤ 60)
    (h3 : 120 ≤ fb.pitchHz) (h4 : fb.pitchHz ≤ 2000) :
    1 ≤ (normalizeTimer raw fb).minutesBefore ∧ (normalizeTimer raw fb).minutesBefore ≤ 60 ∧
    120 ≤ (normalizeTimer raw fb).pitchHz ∧ (normalizeTimer raw fb).pitchHz ≤ 2000 := by
  obtain ⟨a1, a2⟩ := clampInt_bounds (jget raw "minutesBefore") fb.minutesBefore 1 60 h1 h2
  obtain ⟨b1, b2⟩ := clampInt_bounds (jget raw "pitchHz") fb.pitchHz 120 2000 h3 h4
  exact ⟨a1, a2, b1, b2⟩

lemma v2timer_bounds (raw0 : Option JVal) (fb : TimerSettings)
    (h1 : 1 ≤ fb.minutesBefore) (h2 : fb.minutesBefore ≤ 60)
    (h3 : 120 ≤ fb.pitchHz) (h4 : fb.pitchHz ≤ 2000) :
    1 ≤ (v2timer raw0 fb).minutesBefore ∧ (v2timer raw0 fb).minutesBefore ≤ 60 ∧
    120 ≤ (v2timer raw0 fb).pitchHz ∧ (v2timer raw0 fb).pitchHz ≤ 2000 := by
  obtain ⟨a1, a2⟩ := clampInt_bounds
    (jget (match raw0 with
      | none => some (.obj [])
      | some .null => some (.obj [])
      | x => x) "minutesBefore") fb.minutesBefore 1 60 h1 h2
  exact ⟨a1, a2, h3, h4⟩

lemma normCat_timerCount (raw : Option JVal) (fb : CategorySettings) :
    (normalizeCategory raw fb).timerCount =
      match jget raw "timerCount" with
      | some (.num (some q)) =>
        if q = 1 then 1 else if q = 2 then 2 else if q = 3 then 3 else fb.timerCount
      | _ => fb.timerCount := rfl

lemma normalizeCategory_ok (raw : Option JVal) (fb : CategorySettings)
    (hfc : fb.timerCount = 1 ∨ fb.timerCount = 2 ∨ fb.timerCount = 3)
    (hts : ∀ t ∈ [fb.timers.1, fb.timers.2.1, fb.timers.2.2],
      1 ≤ t.minutesBefore ∧ t.minutesBefore ≤ 60 ∧ 120 ≤ t.pitchHz ∧ t.pitchHz ≤ 2000) :
    ((normalizeCategory raw fb).timerCount = 1 ∨ (normalizeCategory raw fb).timerCount = 2 ∨
      (normalizeCategory raw fb).timerCount = 3) ∧
    ∀ t ∈ [(normalizeCategory raw fb).timers.1, (normalizeCategory raw fb).timers.2.1,
        (normalizeCategory raw fb).timers.2.2],
      1 ≤ t.minutesBefore ∧ t.minutesBefore ≤ 60 ∧ 120 ≤ t.pitchHz ∧ t.pitchHz ≤ 2000 := by
  constructor
  · rw [normCat_timerCount]
    split
    · split_ifs
      · exact Or.inl rfl
      · exact Or.inr (Or.inl rfl)
      · exact Or.inr (Or.inr rfl)
      · exact hfc
    · exact hfc
  · intro t ht
    simp only [List.mem_cons, List.not_mem_nil, or_false] at ht
    have hfb1 := hts fb.timers.1 (by simp)
    have hfb2 := hts fb.timers.2.1 (by simp)
    have hfb3 := hts fb.timers.2.2 (by simp)
    rcases ht with rfl | rfl | rfl
    · exact normalizeTimer_bounds _ _ hfb1.1 hfb1.2.1 hfb1.2.2.1 hfb1.2.2.2
    · exact normalizeTimer_bounds _ _ hfb2.1 hfb2.2.1 hfb2.2.2.1 hfb2.2.2.2
    · exact normalizeTimer_bounds _ _ hfb3.1 hfb3.2.1 hfb3.2.2.1 hfb3.2.2.2

lemma timersFromV2_ok (levels : Option JVal) :
    ∀ t ∈ [(timersFromV2 levels).1, (timersFromV2 levels).2.1, (timersFromV2 levels).2.2],
      1 ≤ t.minutesBefore ∧ t.minutesBefore ≤ 60 ∧ 120 ≤ t.pitchHz ∧ t.pitchHz ≤ 2000 := by
  intro t ht
  simp only [List.mem_cons, List.not_mem_nil, or_false] at ht
  rcases ht with rfl | rfl | rfl
  · exact v2timer_bounds _ _ (by decide) (by decide) (by decide) (by decide)
  · exact v2timer_bounds _ _ (by decide) (by decide) (by decide) (by decide)
  · exact v2timer_bounds _ _ (by decide) (by decide) (by decide) (by decide)

lemma normalizeHexColor_valid (raw : Option JVal) (fb : String)
    (h : isHexColorStr fb = true) :
    isHexColorStr (normalizeHexColor raw fb) = true := by
  unfold normalizeHexColor
  split
  · split_ifs with hh
    · exact hh
    · exact h
  · exact h

/-- C10: for every combination of stored settings values — absent or corrupt
slots (`none`), any JSON shape, any historical schema version — the settings
returned by `loadSettings` are fully normalized: `volume ∈ [0,1]`, the
overlay background is a `#rrggbb` hex string, and for every category
`timerCount ∈ {1,2,3}` and every timer slot has `minutesBefore ∈ [1,60]` and
`pitchHz ∈ [120,2000]` (both integers by construction, and `beepPattern` is
one of the three enum values by type). -/
theorem loadSettings_normalized (s5 s4 s3 s2 s1 : Option JVal) :
    (0 ≤ (loadSettings s5 s4 s3 s2 s1).volume ∧ (loadSettings s5 s4 s3 s2 s1).volume ≤ 1) ∧
    isHexColorStr (loadSettings s5 s4 s3 s2 s1).overlayBgHex = true ∧
    ∀ c ∈ [(loadSettings s5 s4 s3 s2 s1).helltideCat, (loadSettings s5 s4 s3 s2 s1).legionCat,
        (loadSettings s5 s4 s3 s2 s1).worldBossCat],
      (c.timerCount = 1 ∨ c.timerCount = 2 ∨ c.timerCount = 3) ∧
      ∀ t ∈ [c.timers.1, c.timers.2.1, c.timers.2.2],
        1 ≤ t.minutesBefore ∧ t.minutesBefore ≤ 60 ∧ 120 ≤ t.pitchHz ∧ t.pitchHz ≤ 2000 := by
  unfold loadSettings
  split_ifs with h1 h2 h3 h4 h5
  · -- version 5
    refine ⟨clampUnit_bounds _ _ (by norm_num [defaults]) (by norm_num [defaults]),
      normalizeHexColor_valid _ _ (by decide), ?_⟩
    intro c hc
    simp only [List.mem_cons, List.not_mem_nil, or_false] at hc
    rcases hc with rfl | rfl | rfl
    · exact normalizeCategory_ok _ _ (by decide) (by decide)
    · exact normalizeCategory_ok _ _ (by decide) (by decide)
    · exact normalizeCategory_ok _ _ (by decide) (by decide)
  · -- version 4
    refine ⟨clampUnit_bounds _ _ (by norm_num [defaults]) (by norm_num [defaults]),
      (by decide : isHexColorStr defaults.overlayBgHex = true), ?_⟩
    intro c hc
    simp only [List.mem_cons, List.not_mem_nil, or_false] at hc
    rcases hc with rfl | rfl | rfl
    · exact normalizeCategory_ok _ _ (by decide) (by decide)
    · exact normalizeCategory_ok _ _ (by decide) (by decide)
    · exact normalizeCategory_ok _ _ (by decide) (by decide)
  · -- version 3
    refine ⟨clampUnit_bounds _ _ (by norm_num [defaults]) (by norm_num [defaults]),
      (by decide : isHexColorStr defaults.overlayBgHex = true), ?_⟩
    intro c hc
    simp only [List.mem_cons, List.not_mem_nil, or_false] at hc
    rcases hc with rfl | rfl | rfl
    · exact normalizeCategory_ok _ _ (by decide) (by decide)
    · exact normalizeCategory_ok _ _ (by decide) (by decide)
    · exact normalizeCategory_ok _ _ (by decide) (by decide)
  · -- version 2
    refine ⟨(by norm_num [defaults] : (0:ℚ) ≤ defaults.volume ∧ defaults.volume ≤ 1),
      (by decide : isHexColorStr defaults.overlayBgHex = true), ?_⟩
    intro c hc
    simp only [List.mem_cons, List.not_mem_nil, or_false] at hc
    have hcount : (match jget s2 "levelCount" with
        | some (.num (some q)) =>
          if q = 1 then (1 : Nat) else if q = 2 then 2 else if q = 3 then 3 else 3
        | _ => (3 : Nat)) = 1 ∨
        (match jget s2 "levelCount" with
        | some (.num (some q)) =>
          if q = 1 then (1 : Nat) else if q = 2 then 2 else if q = 3 then 3 else 3
        | _ => (3 : Nat)) = 2 ∨
        (match jget s2 "levelCount" with
        | some (.num (some q)) =>
          if q = 1 then (1 : Nat) else if q = 2 then 2 else if q = 3 then 3 else 3
        | _ => (3 : Nat)) = 3 := by
      split
      · split_ifs
        · exact Or.inl rfl
        · exact Or.inr (Or.inl rfl)
        · exact Or.inr (Or.inr rfl)
        · exact Or.inr (Or.inr rfl)
      · exact Or.inr (Or.inr rfl)
    rcases hc with rfl | rfl | rfl
    · exact ⟨hcount, timersFromV2_ok _⟩
    · exact ⟨hcount, timersFromV2_ok _⟩
    · exact ⟨hcount, timersFromV2_ok _⟩
  · -- version 1
    refine ⟨(by norm_num [defaults] : (0:ℚ) ≤ defaults.volume ∧ defaults.volume ≤ 1),
      (by decide : isHexColorStr defaults.overlayBgHex = true), ?_⟩
    intro c hc
    simp only [List.mem_cons, List.not_mem_nil, or_false] at hc
    obtain ⟨a1, a2⟩ := clampInt_bounds (jget s1 "minutesBefore") 30 1 60 (by decide) (by decide)
    rcases hc with rfl | rfl | rfl
    · refine ⟨Or.inl rfl, ?_⟩
      intro t ht
      simp only [List.mem_cons, List.not_mem_nil, or_false] at ht
      rcases ht with rfl | rfl | rfl
      · exact ⟨a1, a2, (by decide : (120:Int) ≤ defaultTimers.1.pitchHz),
          (by decide : defaultTimers.1.pitchHz ≤ 2000)⟩
      · exact ⟨by decide, by decide, by decide, by decide⟩
      · exact ⟨by decide, by decide, by decide, by decide⟩
    · exact ⟨Or.inr (Or.inr rfl), by decide⟩
    · exact ⟨Or.inr (Or.inr rfl), by decide⟩
  · -- defaults
    refine ⟨(by norm_num [defaults] : (0:ℚ) ≤ defaults.volume ∧ defaults.volume ≤ 1),
      (by decide : isHexColorStr defaults.overlayBgHex = true), ?_⟩
    intro c hc
    simp only [List.mem_cons, List.not_mem_nil, or_false] at hc
    rcases hc with rfl | rfl | rfl
    · exact ⟨Or.inr (Or.inr rfl), by decide⟩
    · exact ⟨Or.inr (Or.inr rfl), by decide⟩
    · exact ⟨Or.inr (Or.inr rfl), by decide⟩

/-- Witness for C10 at a concrete malformed version-5 store: volume `7` is
clamped to `1`, and the helltide category (with `timerCount: 9`,
`minutesBefore: 500`, `pitchHz: 1`) is normalized back into range. -/
theorem loadSettings_normalized_witness :
    (loadSettings
      (some (.obj [("version", .num (some 5)), ("volume", .num (some 7)),
        ("categories", .obj [("helltide", .obj [("timerCount", .num (some 9)),
          ("timers", .arr [.obj [("minutesBefore", .num (some 500)),
            ("pitchHz", .num (some 1))]])])])]))
      none none none none).volume = 1 ∧
    (((loadSettings
      (some (.obj [("version", .num (some 5)), ("volume", .num (some 7)),
        ("categories", .obj [("helltide", .obj [("timerCount", .num (some 9)),
          ("timers", .arr [.obj [("minutesBefore", .num (some 500)),
            ("pitchHz", .num (some 1))]])])])]))
      none none none none).helltideCat.timerCount = 1 ∨
     (loadSettings
      (some (.obj [("version", .num (some 5)), ("volume", .num (some 7)),
        ("categories", .obj [("helltide", .obj [("timerCount", .num (some 9)),
          ("timers", .arr [.obj [("minutesBefore", .num (some 500)),
            ("pitchHz", .num (some 1))]])])])]))
      none none none none).helltideCat.timerCount = 2 ∨
     (loadSettings
      (some (.obj [("version", .num (some 5)), ("volume", .num (some 7)),
        ("categories", .obj [("helltide", .obj [("timerCount", .num (some 9)),
          ("timers", .arr [.obj [("minutesBefore", .num (some 500)),
            ("pitchHz", .num (some 1))]])])])]))
      none none none none).helltideCat.timerCount = 3) ∧
     ∀ t ∈ [(loadSettings
      (some (.obj [("version", .num (some 5)), ("volume", .num (some 7)),
        ("categories", .obj [("helltide", .obj [("timerCount", .num (some 9)),
          ("timers", .arr [.obj [("minutesBefore", .num (some 500)),
            ("pitchHz", .num (some 1))]])])])]))
      none none none none).helltideCat.timers.1,
        (loadSettings
      (some (.obj [("version", .num (some 5)), ("volume", .num (some 7)),
        ("categories", .obj [("helltide", .obj [("timerCount", .num (some 9)),
          ("timers", .arr [.obj [("minutesBefore", .num (some 500)),
            ("pitchHz", .num (some 1))]])])])]))
      none none none none).helltideCat.timers.2.1,
        (loadSettings
      (some (.obj [("version", .num (some 5)), ("volume", .num (some 7)),
        ("categories", .obj [("helltide", .obj [("timerCount", .num (some 9)),
          ("timers", .arr [.obj [("minutesBefore", .num (some 500)),
            ("pitchHz", .num (some 1))]])])])]))
      none none none none).helltideCat.timers.2.2],
       1 ≤ t.minutesBefore ∧ t.minutesBefore ≤ 60 ∧ 120 ≤ t.pitchHz ∧ t.pitchHz ≤ 2000) :=
  ⟨by decide,
   (loadSettings_normalized
      (some (.obj [("version", .num (some 5)), ("volume", .num (some 7)),
        ("categories", .obj [("helltide", .obj [("timerCount", .num (some 9)),
          ("timers", .arr [.obj [("minutesBefore", .num (some 500)),
            ("pitchHz", .num (some 1))]])])])]))
      none none none none).2.2 _ (List.mem_cons_self _ _)⟩
